import Mathlib

/-!
# dcos-login: a shallow embedding of `login.go`

The Go program logs a user in to a DC/OS cluster by replaying the browser's
OAuth exchange.  This file embeds the login flow (`Login`, `initiateLogin`,
`initiateAuth0`, `githubAuthenticate`, `followLoginRedirect`, `getLoginToken`,
`checkStatus`, the `client` methods) together with the parts of the Go
standard library and of goquery that the flow depends on, and proves
properties of the embedding.

Conventions.
* A Go `string` is a sequence of bytes: `GoString := List Nat`.
* The network is a parameter: a round-trip function that maps the requests
  already issued and the request at hand to a response or a transport error.
* A response body is represented by its two readings: the raw dump
  (`httputil.DumpResponse`) and the parsed HTML tree
  (`goquery.NewDocumentFromResponse`).
-/

namespace DcosLogin

/-! ## Strings and UTF-8 -/

/-- A Go string: a sequence of bytes. -/
abbrev GoString := List Nat

/-- The rune `utf8.RuneError` (U+FFFD). -/
def RuneError : Nat := 0xFFFD

/-- Embedding of `utf8.AppendRune`: the UTF-8 encoding of a rune; surrogates and
values above U+10FFFF are encoded as U+FFFD. -/
def encodeRune (r : Nat) : List Nat :=
  if r < 0x80 then [r]
  else if r < 0x800 then [0xC0 + r / 64, 0x80 + r % 64]
  else if 0x10FFFF < r ∨ (0xD800 ≤ r ∧ r ≤ 0xDFFF) then [0xEF, 0xBF, 0xBD]
  else if r < 0x10000 then [0xE0 + r / 4096, 0x80 + r / 64 % 64, 0x80 + r % 64]
  else [0xF0 + r / 262144, 0x80 + r / 4096 % 64, 0x80 + r / 64 % 64, 0x80 + r % 64]

/-- The bytes of a string literal of the Go source (its UTF-8 encoding). -/
def str (s : String) : GoString :=
  s.toList.flatMap (fun c => encodeRune c.toNat)

/-- A continuation byte of UTF-8: `0x80 ≤ b ≤ 0xBF`. -/
def isCont (b : Nat) : Bool := decide (0x80 ≤ b) && decide (b ≤ 0xBF)

/-- Embedding of `utf8.DecodeRune`: the first rune of `p` and its width in bytes.
An empty input gives `(RuneError, 0)`, an invalid or truncated encoding
`(RuneError, 1)`. -/
def DecodeRune : List Nat → Nat × Nat
  | [] => (RuneError, 0)
  | p0 :: rest =>
    if p0 < 0x80 then (p0, 1)
    else if 0xC2 ≤ p0 ∧ p0 ≤ 0xDF then
      match rest with
      | b1 :: _ =>
        if isCont b1 then (p0 % 32 * 64 + b1 % 64, 2) else (RuneError, 1)
      | _ => (RuneError, 1)
    else if 0xE0 ≤ p0 ∧ p0 ≤ 0xEF then
      match rest with
      | b1 :: b2 :: _ =>
        let lo := if p0 = 0xE0 then 0xA0 else 0x80
        let hi := if p0 = 0xED then 0x9F else 0xBF
        if b1 < lo ∨ hi < b1 then (RuneError, 1)
        else if !isCont b2 then (RuneError, 1)
        else (p0 % 16 * 4096 + b1 % 64 * 64 + b2 % 64, 3)
      | _ => (RuneError, 1)
    else if 0xF0 ≤ p0 ∧ p0 ≤ 0xF4 then
      match rest with
      | b1 :: b2 :: b3 :: _ =>
        let lo := if p0 = 0xF0 then 0x90 else 0x80
        let hi := if p0 = 0xF4 then 0x8F else 0xBF
        if b1 < lo ∨ hi < b1 then (RuneError, 1)
        else if !isCont b2 then (RuneError, 1)
        else if !isCont b3 then (RuneError, 1)
        else (p0 % 8 * 262144 + b1 % 64 * 4096 + b2 % 64 * 64 + b3 % 64, 4)
      | _ => (RuneError, 1)
    else (RuneError, 1)

/-! ## Errors -/

deriving instance DecidableEq for Except

/-- The error values the flow can return. -/
inductive Error where
  /-- An error of the HTTP transport (`c.Client.Get`, `c.Client.Post`) or of
  reading a response body. -/
  | transport (msg : String)
  /-- The error of `checkStatus`: `fmt.Errorf("Expected status 200 <= code <= 206, got %v...")`,
  with the response dump when `httputil.DumpResponse` produced one. -/
  | status (code : Int) (dump : Option GoString)
  /-- An error made with `errors.New`. -/
  | new (msg : String)
  /-- A `base64.CorruptInputError` (the byte offset it carries is not modelled). -/
  | corruptInput
  /-- A `*json.SyntaxError`. -/
  | jsonSyntax
  /-- A `*json.UnmarshalTypeError`. -/
  | jsonType
  deriving DecidableEq, Repr

/-! ## encoding/base64, `StdEncoding` -/

/-- The alphabet of `base64.StdEncoding`. -/
def encodeStd : String :=
  "ABCDEFGHIJKLMNOPQRSTUVWXYZabcdefghijklmnopqrstuvwxyz0123456789+/"

/-- The character of the standard alphabet for the 6-bit value `i`. -/
def encodeChar (i : Nat) : Nat :=
  ((encodeStd.toList.map Char.toNat).get? i).getD 0

/-- Index of the byte `c` in a list of alphabet bytes, from position `i`;
`0xff` when absent. -/
def indexFrom (c : Nat) : Nat → List Nat → Nat
  | _, [] => 0xff
  | i, a :: as => if a = c then i else indexFrom c (i + 1) as

/-- The `decodeMap` of the encoding: the 6-bit value of an alphabet byte, `0xff`
for every other byte. -/
def decodeMap (c : Nat) : Nat :=
  indexFrom c 0 (encodeStd.toList.map Char.toNat)

/-- Standard base64 encoding with `=` padding (`StdEncoding.EncodeToString`). -/
def EncodeToString : List Nat → List Nat
  | a :: b :: c :: rest =>
    encodeChar (a / 4) :: encodeChar (a % 4 * 16 + b / 16) ::
      encodeChar (b % 16 * 4 + c / 64) :: encodeChar (c % 64) :: EncodeToString rest
  | [a, b] =>
    [encodeChar (a / 4), encodeChar (a % 4 * 16 + b / 16), encodeChar (b % 16 * 4), 61]
  | [a] => [encodeChar (a / 4), encodeChar (a % 4 * 16), 61, 61]
  | [] => []

/-- The bytes a quantum of `dlen` sextets decodes to (`dlen - 1` bytes): the tail
of `decodeQuantum`, `val := dbuf[0]<<18 | dbuf[1]<<12 | dbuf[2]<<6 | dbuf[3]`. -/
def quantumBytes (dlen : Nat) (dbuf : List Nat) : List Nat :=
  let val := dbuf.getD 0 0 * 262144 + dbuf.getD 1 0 * 4096 + dbuf.getD 2 0 * 64 + dbuf.getD 3 0
  [val / 65536 % 256, val / 256 % 256, val % 256].take (dlen - 1)

/-- Skips `\r` and `\n`. -/
def skipNewlines : List Nat → List Nat
  | [] => []
  | c :: rest => if c = 10 ∨ c = 13 then skipNewlines rest else c :: rest

/-- The padding branch of `decodeQuantum`: a `=` was read as sextet number `j` and
`rest` follows it. -/
def decodePadding (j : Nat) (dbuf out rest : List Nat) : Except Error (List Nat) :=
  match j with
  | 0 => .error .corruptInput
  | 1 => .error .corruptInput
  | 2 =>
    match skipNewlines rest with
    | [] => .error .corruptInput
    | c :: rest1 =>
      if c ≠ 61 then .error .corruptInput
      else
        match skipNewlines rest1 with
        | [] => .ok (out ++ quantumBytes 2 dbuf)
        | _ :: _ => .error .corruptInput
  | _ =>
    match skipNewlines rest with
    | [] => .ok (out ++ quantumBytes 3 dbuf)
    | _ :: _ => .error .corruptInput

/-- The loop of `Encoding.Decode` over `decodeQuantum`, as one pass over the
input: `j` sextets of the current quantum are in `dbuf`, `out` holds the bytes
decoded so far. -/
def decodeLoop : Nat → List Nat → List Nat → List Nat → Except Error (List Nat)
  | j, _, out, [] => if j = 0 then .ok out else .error .corruptInput
  | j, dbuf, out, c :: rest =>
    if decodeMap c ≠ 0xff then
      if j = 3 then decodeLoop 0 [] (out ++ quantumBytes 4 (dbuf ++ [decodeMap c])) rest
      else decodeLoop (j + 1) (dbuf ++ [decodeMap c]) out rest
    else if c = 10 ∨ c = 13 then decodeLoop j dbuf out rest
    else if c ≠ 61 then .error .corruptInput
    else decodePadding j dbuf out rest

/-- Embedding of `base64.StdEncoding.DecodeString`. -/
def DecodeString (s : GoString) : Except Error (List Nat) :=
  decodeLoop 0 [] [] s

/-! ## regexp: the token matcher

Go's `regexp` returns the leftmost match and, among the matches that start
there, the one a backtracking search finds first.  The matcher below is that
backtracking search for the constructs the pattern of `getLoginToken` uses:
literal characters, greedy `[^c]+`, and one capture group.  The pattern's
delimiters (`"` and `;`) are ASCII, so matching byte by byte and matching rune
by rune select the same spans of the input. -/

/-- The instructions of a pattern. -/
inductive Inst where
  /-- A literal character. -/
  | char (c : Nat)
  /-- Greedy `[^c]+`. -/
  | plusNot (c : Nat)
  /-- Opening parenthesis of capture group 1. -/
  | capOpen
  /-- Closing parenthesis of capture group 1. -/
  | capClose
  deriving DecidableEq, Repr

/-- Offsets of capture group 1. -/
structure Caps where
  start : Nat
  stop : Nat
  deriving DecidableEq, Repr

/-- Greedy `[^c]*` followed by the continuation `k`: the longer repetition is
tried first. -/
def starNot {R : Type} (c : Nat) (k : Nat → List Nat → Option R) : Nat → List Nat → Option R
  | pos, [] => k pos []
  | pos, x :: s =>
    if x ≠ c then
      match starNot c k (pos + 1) s with
      | some r => some r
      | none => k pos (x :: s)
    else k pos (x :: s)

/-- Runs the pattern anchored at offset `pos`, where `s` is the input from `pos`
on; the result is the end offset of the match and the capture offsets. -/
def runInsts : List Inst → Nat → Caps → List Nat → Option (Nat × Caps)
  | [], pos, caps, _ => some (pos, caps)
  | .char c :: prog, pos, caps, s =>
    match s with
    | [] => none
    | x :: s1 => if x = c then runInsts prog (pos + 1) caps s1 else none
  | .plusNot c :: prog, pos, caps, s =>
    match s with
    | [] => none
    | x :: s1 =>
      if x ≠ c then starNot c (fun p r => runInsts prog p caps r) (pos + 1) s1 else none
  | .capOpen :: prog, pos, caps, s => runInsts prog pos { caps with start := pos } s
  | .capClose :: prog, pos, caps, s => runInsts prog pos { caps with stop := pos } s

/-- The substring `s[a:b]`. -/
def slice (s : GoString) (a b : Nat) : GoString := (s.drop a).take (b - a)

/-- The unanchored search: the first start offset, from `pos` on, at which the
pattern matches. -/
def findFrom (prog : List Inst) (whole : GoString) : Nat → List Nat → List GoString
  | pos, [] =>
    match runInsts prog pos ⟨0, 0⟩ [] with
    | some (e, caps) => [slice whole pos e, slice whole caps.start caps.stop]
    | none => []
  | pos, x :: s =>
    match runInsts prog pos ⟨0, 0⟩ (x :: s) with
    | some (e, caps) => [slice whole pos e, slice whole caps.start caps.stop]
    | none => findFrom prog whole (pos + 1) s

/-- Embedding of `(*Regexp).FindStringSubmatch` for a pattern with one capture
group: the whole match and the group, or the empty slice when nothing matches. -/
def FindStringSubmatch (prog : List Inst) (s : GoString) : List GoString :=
  findFrom prog s 0 s

/-- The compiled pattern of `getLoginToken`,
`regexp.MustCompile("var value [^\"]+\"([^\"]+)\"[^;]+;")`. -/
def tokenMatcher : List Inst :=
  (str "var value ").map Inst.char ++
    [.plusNot 34, .char 34, .capOpen, .plusNot 34, .capClose, .char 34, .plusNot 59, .char 59]

/-! ## encoding/json: `Unmarshal` into `struct { IDToken string "json:\"id_token\"" }`

`json.Unmarshal` first checks that the whole input is one valid JSON value
(`checkValid`) and then decodes it into the target.  The embedding parses the
input to a tree, with the grammar of Go's scanner, and decodes the tree into
the one-field struct. -/

/-- A JSON value; a string holds its unquoted bytes, a number its literal. -/
inductive JSON where
  | null
  | bool (b : Bool)
  | number (lit : GoString)
  | string (s : GoString)
  | array (elems : List JSON)
  | object (members : List (GoString × JSON))

/-- Whether the value is a JSON string. -/
def JSON.isString : JSON → Bool
  | .string _ => true
  | _ => false

/-- Whether the value is the JSON `null`. -/
def JSON.isNull : JSON → Bool
  | .null => true
  | _ => false

/-- Whether the value is a JSON object. -/
def JSON.isObject : JSON → Bool
  | .object _ => true
  | _ => false

/-- The scanner's `isSpace`. -/
def isSpace (c : Nat) : Bool := c = 32 || c = 9 || c = 13 || c = 10

/-- Skips JSON white space. -/
def skipSpace : List Nat → List Nat
  | [] => []
  | c :: rest => if isSpace c then skipSpace rest else c :: rest

/-- A decimal digit. -/
def isDigit (c : Nat) : Bool := decide (48 ≤ c) && decide (c ≤ 57)

/-- The value of a hexadecimal digit. -/
def hexVal (c : Nat) : Option Nat :=
  if 48 ≤ c ∧ c ≤ 57 then some (c - 48)
  else if 97 ≤ c ∧ c ≤ 102 then some (c - 97 + 10)
  else if 65 ≤ c ∧ c ≤ 70 then some (c - 65 + 10)
  else none

/-- Embedding of `getu4`: the rune of a leading `\uXXXX`, `none` for Go's `-1`. -/
def getu4 : List Nat → Option Nat
  | 92 :: 117 :: h1 :: h2 :: h3 :: h4 :: _ =>
    match hexVal h1, hexVal h2, hexVal h3, hexVal h4 with
    | some a, some b, some c, some d => some (((a * 16 + b) * 16 + c) * 16 + d)
    | _, _, _, _ => none
  | _ => none

/-- The scanner's states inside a string literal: `stateInString`, `stateInStringEsc`
(after a backslash) and `stateInStringEscU` to `stateInStringEscU123` (after `\u`, with
the number of hexadecimal digits still expected). -/
inductive StringState where
  | inString
  | inStringEsc
  | inStringEscU (remaining : Nat)
  deriving DecidableEq, Repr

/-- Scans a string literal from just after its opening quote, one byte per step as the
scanner of `checkValid` does: the raw bytes up to the closing quote and the input after
it.  Control characters and unknown escapes are syntax errors. -/
def scanStringFrom : StringState → List Nat → Option (List Nat × List Nat)
  | _, [] => none
  | .inString, c :: rest =>
    if c = 34 then some ([], rest)
    else if c = 92 then (scanStringFrom .inStringEsc rest).map (fun p => (c :: p.1, p.2))
    else if c < 32 then none
    else (scanStringFrom .inString rest).map (fun p => (c :: p.1, p.2))
  | .inStringEsc, c :: rest =>
    if c = 98 ∨ c = 102 ∨ c = 110 ∨ c = 114 ∨ c = 116 ∨ c = 92 ∨ c = 47 ∨ c = 34 then
      (scanStringFrom .inString rest).map (fun p => (c :: p.1, p.2))
    else if c = 117 then (scanStringFrom (.inStringEscU 4) rest).map (fun p => (c :: p.1, p.2))
    else none
  | .inStringEscU n, c :: rest =>
    if (hexVal c).isSome then
      (scanStringFrom (if n ≤ 1 then .inString else .inStringEscU (n - 1)) rest).map
        (fun p => (c :: p.1, p.2))
    else none

/-- Scans a string literal from just after its opening quote. -/
def scanString (s : List Nat) : Option (List Nat × List Nat) :=
  scanStringFrom .inString s

/-- Embedding of `utf16.DecodeRune` on a surrogate `r1` and the result of `getu4`
for what follows it. -/
def utf16DecodeRune (r1 : Nat) (r2 : Option Nat) : Nat :=
  match r2 with
  | some r2 =>
    if 0xD800 ≤ r1 ∧ r1 < 0xDC00 ∧ 0xDC00 ≤ r2 ∧ r2 < 0xE000 then
      (r1 - 0xD800) * 1024 + (r2 - 0xDC00) + 0x10000
    else 0xFFFD
  | none => 0xFFFD

/-- The first loop of `unquoteBytes`: `true` when the raw bytes hold no escape, no
quote, no control character and no invalid UTF-8, so that they are returned as
they are. -/
def unquoteClean : Nat → List Nat → Bool
  | _, [] => true
  | 0, _ :: _ => false
  | fuel + 1, c :: rest =>
    if c = 92 ∨ c = 34 ∨ c < 32 then false
    else if c < 128 then unquoteClean fuel rest
    else
      let d := DecodeRune (c :: rest)
      if d.1 = RuneError ∧ d.2 = 1 then false
      else unquoteClean fuel ((c :: rest).drop d.2)

/-- The second loop of `unquoteBytes`: escapes are replaced by the characters
they denote and invalid UTF-8 by U+FFFD. -/
def unquoteSlow : Nat → List Nat → Option (List Nat)
  | _, [] => some []
  | 0, _ :: _ => none
  | fuel + 1, c :: rest =>
    if c = 92 then
      match rest with
      | [] => none
      | e :: rest1 =>
        if e = 34 ∨ e = 92 ∨ e = 47 ∨ e = 39 then (unquoteSlow fuel rest1).map (e :: ·)
        else if e = 98 then (unquoteSlow fuel rest1).map (8 :: ·)
        else if e = 102 then (unquoteSlow fuel rest1).map (12 :: ·)
        else if e = 110 then (unquoteSlow fuel rest1).map (10 :: ·)
        else if e = 114 then (unquoteSlow fuel rest1).map (13 :: ·)
        else if e = 116 then (unquoteSlow fuel rest1).map (9 :: ·)
        else if e = 117 then
          match getu4 (c :: rest) with
          | none => none
          | some rr =>
            let after := rest1.drop 4
            if 0xD800 ≤ rr ∧ rr < 0xE000 then
              let dec := utf16DecodeRune rr (getu4 after)
              if dec ≠ 0xFFFD then (unquoteSlow fuel (after.drop 6)).map (encodeRune dec ++ ·)
              else (unquoteSlow fuel after).map (encodeRune 0xFFFD ++ ·)
            else (unquoteSlow fuel after).map (encodeRune rr ++ ·)
        else none
    else if c = 34 ∨ c < 32 then none
    else if c < 128 then (unquoteSlow fuel rest).map (c :: ·)
    else
      let d := DecodeRune (c :: rest)
      (unquoteSlow fuel ((c :: rest).drop d.2)).map (encodeRune d.1 ++ ·)

/-- Embedding of `unquoteBytes` on the bytes between the quotes.  The two loops run on
fuel; every step consumes at least one byte, so the length of the input is enough. -/
def unquote (raw : List Nat) : Option (List Nat) :=
  if unquoteClean raw.length raw then some raw else unquoteSlow raw.length raw

/-- Scans an optional exponent of a number literal. -/
def scanExp : List Nat → Option (List Nat × List Nat)
  | [] => some ([], [])
  | e :: r =>
    if e = 101 ∨ e = 69 then
      let signed : List Nat × List Nat :=
        match r with
        | x :: r1 => if x = 43 ∨ x = 45 then ([x], r1) else ([], r)
        | [] => ([], r)
      let ds := signed.2.takeWhile isDigit
      if ds = [] then none else some (e :: signed.1 ++ ds, signed.2.dropWhile isDigit)
    else some ([], e :: r)

/-- Scans an optional fraction and exponent of a number literal. -/
def scanFrac : List Nat → Option (List Nat × List Nat)
  | 46 :: r =>
    let ds := r.takeWhile isDigit
    if ds = [] then none
    else
      match scanExp (r.dropWhile isDigit) with
      | some (ex, r1) => some (46 :: ds ++ ex, r1)
      | none => none
  | s => scanExp s

/-- Scans the integer part of a number literal and what follows it. -/
def scanInt : List Nat → Option (List Nat × List Nat)
  | [] => none
  | d :: r =>
    if d = 48 then
      match scanFrac r with
      | some (t, r1) => some (d :: t, r1)
      | none => none
    else if 49 ≤ d ∧ d ≤ 57 then
      match scanFrac (r.dropWhile isDigit) with
      | some (t, r1) => some (d :: r.takeWhile isDigit ++ t, r1)
      | none => none
    else none

/-- Scans a number literal: the literal and the input after it. -/
def scanNumber : List Nat → Option (List Nat × List Nat)
  | 45 :: r =>
    match scanInt r with
    | some (t, r1) => some (45 :: t, r1)
    | none => none
  | s => scanInt s

/-- Strips the literal `lit` from the front of the input. -/
def scanLiteral : List Nat → List Nat → Option (List Nat)
  | [], s => some s
  | _ :: _, [] => none
  | l :: lit, c :: s => if c = l then scanLiteral lit s else none

/-- The scanner's `maxNestingDepth`. -/
def maxNestingDepth : Nat := 10000

mutual
/-- Parses one JSON value at nesting depth `depth`; `none` is a syntax error. -/
def parseValue : Nat → Nat → List Nat → Option (JSON × List Nat)
  | 0, _, _ => none
  | fuel + 1, depth, s =>
    match skipSpace s with
    | [] => none
    | c :: rest =>
      if c = 123 then
        if maxNestingDepth < depth + 1 then none
        else
          match skipSpace rest with
          | 125 :: r => some (.object [], r)
          | 34 :: r =>
            match parseMembers fuel (depth + 1) r with
            | some (ms, r1) => some (.object ms, r1)
            | none => none
          | _ => none
      else if c = 91 then
        if maxNestingDepth < depth + 1 then none
        else
          match skipSpace rest with
          | 93 :: r => some (.array [], r)
          | _ =>
            match parseElements fuel (depth + 1) rest with
            | some (es, r1) => some (.array es, r1)
            | none => none
      else if c = 34 then
        match scanString rest with
        | some (raw, r) =>
          match unquote raw with
          | some t => some (.string t, r)
          | none => none
        | none => none
      else if c = 116 then
        match scanLiteral (str "rue") rest with
        | some r => some (.bool true, r)
        | none => none
      else if c = 102 then
        match scanLiteral (str "alse") rest with
        | some r => some (.bool false, r)
        | none => none
      else if c = 110 then
        match scanLiteral (str "ull") rest with
        | some r => some (.null, r)
        | none => none
      else
        match scanNumber (c :: rest) with
        | some (t, r) => some (.number t, r)
        | none => none
/-- Parses the members of an object from just after the opening quote of a key
up to and including the closing brace. -/
def parseMembers : Nat → Nat → List Nat → Option (List (GoString × JSON) × List Nat)
  | 0, _, _ => none
  | fuel + 1, depth, s =>
    match scanString s with
    | none => none
    | some (rawKey, r) =>
      match unquote rawKey with
      | none => none
      | some key =>
        match skipSpace r with
        | 58 :: r1 =>
          match parseValue fuel depth r1 with
          | none => none
          | some (v, r2) =>
            match skipSpace r2 with
            | 125 :: r3 => some ([(key, v)], r3)
            | 44 :: r3 =>
              match skipSpace r3 with
              | 34 :: r4 =>
                match parseMembers fuel depth r4 with
                | some (ms, r5) => some ((key, v) :: ms, r5)
                | none => none
              | _ => none
            | _ => none
        | _ => none
/-- Parses the elements of a non-empty array up to and including the closing
bracket. -/
def parseElements : Nat → Nat → List Nat → Option (List JSON × List Nat)
  | 0, _, _ => none
  | fuel + 1, depth, s =>
    match parseValue fuel depth s with
    | none => none
    | some (v, r) =>
      match skipSpace r with
      | 93 :: r1 => some ([v], r1)
      | 44 :: r1 =>
        match parseElements fuel depth r1 with
        | some (es, r2) => some (v :: es, r2)
        | none => none
      | _ => none
end

/-- The whole input as one JSON value (`checkValid` and the value it scans);
`none` is a `SyntaxError`.  The fuel is twice the input length, which is enough
(`parseJSON_eq_some_iff`): every second call at least consumes a byte. -/
def parseJSON (data : List Nat) : Option JSON :=
  match parseValue (2 * data.length + 2) 0 data with
  | some (v, rest) => if skipSpace rest = [] then some v else none
  | none => none

/-- The folded form of an object key, for the case-insensitive field match: ASCII
letters are upper-cased, and U+212A (Kelvin sign) and U+017F (long s), the only
other runes whose simple case folding reaches ASCII, become `K` and `S`. -/
def foldName : List Nat → List Nat
  | 0xE2 :: 0x84 :: 0xAA :: rest => 75 :: foldName rest
  | 0xC5 :: 0xBF :: rest => 83 :: foldName rest
  | c :: rest => (if 97 ≤ c ∧ c ≤ 122 then c - 32 else c) :: foldName rest
  | [] => []

/-- Whether an object key selects the field tagged `json:"id_token"`. -/
def isIDTokenKey (key : GoString) : Bool :=
  decide (foldName key = str "ID_TOKEN")

/-- Decoding of an object's members into the struct: `tok` is the current value
of `IDToken`, `err` the decoder's saved error (the first one is kept). -/
def objectInto : List (GoString × JSON) → GoString → Option Error → GoString × Option Error
  | [], tok, err => (tok, err)
  | (key, v) :: ms, tok, err =>
    if isIDTokenKey key then
      match v with
      | .string s => objectInto ms s err
      | .null => objectInto ms tok err
      | .bool _ | .number _ | .array _ | .object _ =>
        objectInto ms tok (match err with | some e => some e | none => some .jsonType)
    else objectInto ms tok err

/-- Decoding of a JSON value into the zero-valued struct: the resulting `IDToken`
or the error `Unmarshal` returns. -/
def decodeIDToken : JSON → Except Error GoString
  | .null => .ok []
  | .object ms =>
    match objectInto ms [] none with
    | (tok, none) => .ok tok
    | (_, some e) => .error e
  | .bool _ | .number _ | .string _ | .array _ => .error .jsonType

/-- Embedding of `json.Unmarshal(data, &jwt)` followed by reading `jwt.IDToken`. -/
def Unmarshal (data : List Nat) : Except Error GoString :=
  match parseJSON data with
  | none => .error .jsonSyntax
  | some v => decodeIDToken v

/-! ## net/url: `Values` -/

/-- Embedding of `url.Values` (`map[string][]string`): a key and its values, each key
listed once. -/
abbrev Values := List (GoString × List GoString)

/-- The map lookup `v[key]`: the values of the key, empty when the key is absent. -/
def Values.lookup : Values → GoString → List GoString
  | [], _ => []
  | (k, vs) :: rest, key => if k = key then vs else Values.lookup rest key

/-- Embedding of `Values.Get`: the first value of the key, `""` when there is none. -/
def Values.Get (v : Values) (key : GoString) : GoString :=
  match Values.lookup v key with
  | [] => []
  | x :: _ => x

/-- Embedding of `Values.Add`: appends the value to the values of the key. -/
def Values.Add : Values → GoString → GoString → Values
  | [], key, value => [(key, [value])]
  | (k, vs) :: rest, key, value =>
    if k = key then (k, vs ++ [value]) :: rest else (k, vs) :: Values.Add rest key value

/-- Byte-wise order of strings. -/
def strLe : List Nat → List Nat → Bool
  | [], _ => true
  | _ :: _, [] => false
  | a :: as, b :: bs => if a < b then true else if b < a then false else strLe as bs

/-- Inserts a key into a sorted list of keys. -/
def insertKey (k : GoString) : List GoString → List GoString
  | [] => [k]
  | x :: xs => if strLe k x then k :: x :: xs else x :: insertKey k xs

/-- The keys in increasing order (`slices.Sort(keys)`). -/
def sortKeys : List GoString → List GoString
  | [] => []
  | k :: ks => insertKey k (sortKeys ks)

/-- The digit of `"0123456789ABCDEF"` for a value below 16. -/
def upperhex (n : Nat) : Nat := if n < 10 then 48 + n else 55 + n

/-- Embedding of `shouldEscape(c, encodeQueryComponent)`: everything but letters, digits
and `-`, `_`, `.`, `~` is escaped. -/
def shouldEscape (c : Nat) : Bool :=
  !(decide (97 ≤ c ∧ c ≤ 122) || decide (65 ≤ c ∧ c ≤ 90) || decide (48 ≤ c ∧ c ≤ 57) ||
    c = 45 || c = 95 || c = 46 || c = 126)

/-- Embedding of `url.QueryEscape`. -/
def QueryEscape (s : GoString) : GoString :=
  s.flatMap (fun c =>
    if c = 32 then [43]
    else if shouldEscape c then [37, upperhex (c / 16), upperhex (c % 16)]
    else [c])

/-- The `key=value` pairs of `Encode`, in the order they are written: keys sorted, the
values of a key in their order. -/
def Values.pairs (v : Values) : List (GoString × GoString) :=
  (sortKeys (v.map Prod.fst)).flatMap (fun k => (Values.lookup v k).map (fun x => (k, x)))

/-- Embedding of `Values.Encode`: the URL-encoded form, `"bar=baz&foo=quux"`. -/
def Values.Encode (v : Values) : GoString :=
  List.intercalate [38] ((Values.pairs v).map (fun kv => QueryEscape kv.1 ++ [61] ++ QueryEscape kv.2))

/-! ## Reading a form body back

What the receiver of an `application/x-www-form-urlencoded` body does with it
(`url.ParseQuery`): the body is cut at every `&`, each non-empty piece at its first
`=`, and both halves are unescaped.  The pairs are kept in the order in which they are
written. -/

/-- The pieces of a string between the occurrences of a separator. -/
def splitOn (sep : Nat) : List Nat → List (List Nat)
  | [] => [[]]
  | c :: s =>
    if c = sep then [] :: splitOn sep s
    else
      match splitOn sep s with
      | seg :: segs => (c :: seg) :: segs
      | [] => [[c]]

/-- Where `unescape` stands in its input: between escapes, after a `%`, or after a `%`
and the first hexadecimal digit. -/
inductive EscState where
  | plain
  | percent
  | percentHex (hi : Nat)
  deriving DecidableEq, Repr

/-- Embedding of `unescape(s, encodeQueryComponent)`, one byte per step: `%XX` becomes the
byte `XX`, `+` a space; a `%` that two hexadecimal digits do not follow is an error. -/
def unescapeFrom : EscState → List Nat → Option (List Nat)
  | .plain, [] => some []
  | .percent, [] => none
  | .percentHex _, [] => none
  | .plain, c :: rest =>
    if c = 37 then unescapeFrom .percent rest
    else if c = 43 then (unescapeFrom .plain rest).map (fun t => 32 :: t)
    else (unescapeFrom .plain rest).map (fun t => c :: t)
  | .percent, c :: rest =>
    match hexVal c with
    | some hi => unescapeFrom (.percentHex hi) rest
    | none => none
  | .percentHex hi, c :: rest =>
    match hexVal c with
    | some lo => (unescapeFrom .plain rest).map (fun t => (hi * 16 + lo) :: t)
    | none => none

/-- Embedding of `url.QueryUnescape`. -/
def QueryUnescape (s : GoString) : Option GoString :=
  unescapeFrom .plain s

/-- One piece `key=value` of a form body: cut at the first `=`, both halves unescaped. -/
def parseSegment (seg : GoString) : Option (GoString × GoString) :=
  match QueryUnescape (seg.takeWhile (fun c => !decide (c = 61))),
      QueryUnescape ((seg.dropWhile (fun c => !decide (c = 61))).drop 1) with
  | some k, some v => some (k, v)
  | _, _ => none

/-- The pairs of the pieces of a form body; a piece with a `;` or a bad escape is an
error. -/
def parseSegments : List GoString → Option (List (GoString × GoString))
  | [] => some []
  | seg :: segs =>
    if 59 ∈ seg then none
    else
      match parseSegment seg, parseSegments segs with
      | some kv, some kvs => some (kv :: kvs)
      | _, _ => none

/-- The pairs a form body holds, in the order in which they are written (the loop of
`url.ParseQuery`; empty pieces are skipped); `none` when the body is malformed. -/
def ParseForm (body : GoString) : Option (List (GoString × GoString)) :=
  parseSegments ((splitOn 38 body).filter (fun seg => !decide (seg = [])))

/-- A string of bytes: every element is below 256. -/
def isBytes (s : GoString) : Prop := ∀ b ∈ s, b < 256

/-! ## The parsed HTML document and goquery -/

/-- A node of the tree `html.Parse` builds. -/
inductive Node where
  /-- An element: its tag (`Data`), its attributes and its children. -/
  | element (tag : GoString) (attrs : List (GoString × GoString)) (children : List Node)
  /-- A text node and its `Data`. -/
  | text (data : GoString)
  /-- A comment or doctype node. -/
  | comment (data : GoString)

/-- An element without its children. -/
structure Elem where
  tag : GoString
  attrs : List (GoString × GoString)

/-- A node of a selection together with its ancestor elements, nearest first. -/
structure Located where
  node : Node
  ancestors : List Elem

/-- A goquery `Selection`: its nodes in document order. -/
abbrev Selection := List Located

/-- A simple selector. -/
inductive Simple where
  /-- A type selector such as `a`. -/
  | tag (name : GoString)
  /-- A class selector such as `.container`. -/
  | cls (name : GoString)
  /-- An attribute selector such as `[name="authenticity_token"]`. -/
  | attrEq (key val : GoString)

/-- A compound selector: every simple selector must hold of the element. -/
abbrev Compound := List Simple

/-- A selector: compound selectors joined by the descendant combinator, as written. -/
abbrev Selector := List Compound

/-- The first attribute of the element with the given key (`getAttributeValue`). -/
def attrValue : List (GoString × GoString) → GoString → Option GoString
  | [], _ => none
  | (k, v) :: rest, key => if k = key then some v else attrValue rest key

/-- Splits at the white space of HTML, `" \t\r\n\f"`; `cur` is the field being read. -/
def splitFields : List Nat → List Nat → List (List Nat)
  | cur, [] => [cur]
  | cur, c :: rest =>
    if c = 32 ∨ c = 9 ∨ c = 13 ∨ c = 10 ∨ c = 12 then cur :: splitFields [] rest
    else splitFields (cur ++ [c]) rest

/-- Whether a simple selector holds of an element. -/
def Simple.holds (e : Elem) : Simple → Bool
  | .tag name => decide (e.tag = name)
  | .cls name => e.attrs.any (fun a => decide (a.1 = str "class") && decide (name ∈ splitFields [] a.2))
  | .attrEq key val => e.attrs.any (fun a => decide (a.1 = key) && decide (a.2 = val))

/-- Whether a compound selector holds of an element. -/
def Compound.holds (c : Compound) (e : Elem) : Bool := c.all (Simple.holds e)

/-- The descendant combinator, on the compounds from the subject outwards: the first
compound holds of the element, and the remaining ones hold along its ancestors. -/
def chainHolds : List Compound → Elem → List Elem → Bool
  | [], _, _ => true
  | c :: outer, e, ancestors =>
    Compound.holds c e &&
      (match outer with
       | [] => true
       | _ :: _ =>
         (ancestors.tails).any (fun t =>
           match t with
           | [] => false
           | a :: above => chainHolds outer a above))

/-- Whether the selector matches the element with the given ancestors. -/
def Selector.holds (sel : Selector) (e : Elem) (ancestors : List Elem) : Bool :=
  chainHolds sel.reverse e ancestors

mutual
/-- The nodes of the subtree of a node that match the selector, in document order
(cascadia's `MatchAll`). -/
def matchAll (sel : Selector) : List Elem → Node → List Located
  | ancestors, .element tag attrs children =>
    (if Selector.holds sel ⟨tag, attrs⟩ ancestors then [⟨.element tag attrs children, ancestors⟩]
      else []) ++ matchAllList sel (⟨tag, attrs⟩ :: ancestors) children
  | _, .text _ => []
  | _, .comment _ => []
/-- The function `matchAll` over a list of siblings. -/
def matchAllList (sel : Selector) : List Elem → List Node → List Located
  | _, [] => []
  | ancestors, n :: ns => matchAll sel ancestors n ++ matchAllList sel ancestors ns
end

/-- Embedding of `doc.Find(selector)`: the matching elements of the document, whose
top-level nodes are `doc`. -/
def Document.Find (doc : List Node) (sel : Selector) : Selection :=
  matchAllList sel [] doc

/-- The matching descendants of one node of a selection. -/
def Located.Find (l : Located) (sel : Selector) : Selection :=
  match l.node with
  | .element tag attrs children => matchAllList sel (⟨tag, attrs⟩ :: l.ancestors) children
  | _ => []

/-- Embedding of `Selection.Find(selector)`, for a selection whose nodes are not nested
in one another (the flow calls it on a selection of one node). -/
def Selection.Find (s : Selection) (sel : Selector) : Selection :=
  s.flatMap (fun l => Located.Find l sel)

/-- Embedding of `Selection.Attr(name)`: the attribute of the first node; `none` stands
for `exists == false`. -/
def Selection.Attr (s : Selection) (name : GoString) : Option GoString :=
  match s with
  | [] => none
  | l :: _ =>
    match l.node with
    | .element _ attrs _ => attrValue attrs name
    | _ => none

/-- Embedding of `Selection.Last()`. -/
def Selection.Last (s : Selection) : Selection :=
  match s.getLast? with
  | some l => [l]
  | none => []

mutual
/-- The text of a node: the data of the text nodes of its subtree, concatenated. -/
def Node.Text : Node → GoString
  | .element _ _ children => textOfList children
  | .text data => data
  | .comment _ => []
/-- The function `Node.Text` over a list of siblings. -/
def textOfList : List Node → GoString
  | [] => []
  | n :: ns => Node.Text n ++ textOfList ns
end

/-- Embedding of `Selection.Text()`. -/
def Selection.Text (s : Selection) : GoString :=
  s.flatMap (fun l => Node.Text l.node)

/-- The selector `.container div p a` of `followLoginRedirect`. -/
def linkSelector : Selector :=
  [[.cls (str "container")], [.tag (str "div")], [.tag (str "p")], [.tag (str "a")]]

/-- The selector `form[action="/login/oauth/authorize"]` of `followLoginRedirect`. -/
def formSelector : Selector :=
  [[.tag (str "form"), .attrEq (str "action") (str "/login/oauth/authorize")]]

/-- The selector `input` of `followLoginRedirect`. -/
def inputSelector : Selector := [[.tag (str "input")]]

/-- The selector `input[name="authenticity_token"]` of `initiateAuth0`. -/
def csrfSelector : Selector :=
  [[.tag (str "input"), .attrEq (str "name") (str "authenticity_token")]]

/-- The selector `script[type="text/javascript"]` of `getLoginToken`. -/
def scriptSelector : Selector :=
  [[.tag (str "script"), .attrEq (str "type") (str "text/javascript")]]

mutual
/-- The nodes of the subtree of a node, the node first, in document order. -/
def subtree : Node → List Node
  | .element tag attrs children => .element tag attrs children :: subtreeList children
  | .text data => [.text data]
  | .comment data => [.comment data]
/-- The function `subtree` over a list of siblings. -/
def subtreeList : List Node → List Node
  | [] => []
  | n :: ns => subtree n ++ subtreeList ns
end

/-- The nodes strictly inside a node, in document order. -/
def Node.inside : Node → List Node
  | .element _ _ children => subtreeList children
  | _ => []

/-- Whether a node is an `input` element. -/
def Node.isInput : Node → Bool
  | .element tag _ _ => decide (tag = str "input")
  | _ => false

/-- The `name` and `value` attributes of an element as the document has them: for each,
the value of the first attribute of that key, the empty string when there is none. -/
def Node.nameValue : Node → GoString × GoString
  | .element _ attrs _ =>
    ((List.lookup (str "name") attrs).getD [], (List.lookup (str "value") attrs).getD [])
  | .text _ => ([], [])
  | .comment _ => ([], [])

/-- The fields of a form: the `name` and `value` attributes of the `input` elements
inside the node, in document order. -/
def formFields (form : Node) : List (GoString × GoString) :=
  ((Node.inside form).filter Node.isInput).map Node.nameValue

/-! ## HTTP -/

/-- The request methods the flow uses. -/
inductive Method where
  | GET
  | POST
  deriving DecidableEq, Repr

/-- A request handed to `http.Client`. -/
structure Request where
  method : Method
  url : GoString
  contentType : GoString
  body : GoString
  deriving DecidableEq, Repr

/-- A response of `http.Client`, after the redirects it followed. -/
structure Response where
  /-- The field `res.StatusCode`. -/
  StatusCode : Int
  /-- The query of the final request, `res.Request.URL.Query()`. -/
  query : Values
  /-- The result of `httputil.DumpResponse(res, true)`. -/
  dump : Except Error GoString
  /-- The result of `goquery.NewDocumentFromResponse(res)`: the top-level nodes of the
  parsed body. -/
  document : Except Error (List Node)

/-- The surroundings of a login attempt: the package variable `Debug`, and the network
as a function of the TLS setting of the client, the requests issued before, and the
request. -/
structure Env where
  Debug : Bool
  roundTrip : Bool → List Request → Request → Except Error Response

/-- What a login attempt leaves behind: the requests it issued (oldest first), the lines
given to `log.Println`, and the lines written to standard output. -/
structure State where
  trace : List Request
  log : List (List GoString)
  stdout : List GoString
  deriving DecidableEq, Repr

/-- Embedding of `Options` (the pointers dereferenced). -/
structure Options where
  ClusterURL : GoString
  Username : GoString
  Password : GoString
  AllowInsecureTLS : Bool

/-- Embedding of the type `client`: the `http.Client` with its TLS setting. -/
structure client where
  InsecureSkipVerify : Bool
  deriving DecidableEq, Repr

/-- Embedding of `debug`: logs its arguments when `Debug` is set. -/
def debug (env : Env) (a : List GoString) (s : State) : State :=
  if env.Debug then { s with log := s.log ++ [a] } else s

/-- Embedding of `httpClient`; `cookiejar.New(nil)` does not fail. -/
def httpClient (allowInsecureTLS : Bool) : Except Error client :=
  .ok ⟨allowInsecureTLS⟩

/-- Embedding of `checkStatus`: `none` is the nil error. -/
def checkStatus (res : Response) : Option Error :=
  if res.StatusCode < 200 ∨ res.StatusCode > 206 then
    match res.dump with
    | .ok dump => some (.status res.StatusCode (some dump))
    | .error _ => some (.status res.StatusCode none)
  else none

/-- One exchange of the embedded `http.Client`: the request is recorded and answered. -/
def client.exchange (env : Env) (c : client) (req : Request) (s : State) :
    Except Error Response × State :=
  (env.roundTrip c.InsecureSkipVerify s.trace req, { s with trace := s.trace ++ [req] })

/-- The URL `(*client).Get` requests: the endpoint, with the encoded query appended when
there is one. -/
def withQuery (endpoint : GoString) (query : Values) : GoString :=
  if query.length > 0 then endpoint ++ str "?" ++ Values.Encode query else endpoint

/-- Embedding of `(*client).Get`. -/
def client.Get (env : Env) (c : client) (endpoint : GoString) (query : Values) (s : State) :
    Except Error Response × State :=
  let endpoint := withQuery endpoint query
  let s := debug env [str "GET", endpoint] s
  match client.exchange env c ⟨.GET, endpoint, [], []⟩ s with
  | (.error err, s) => (.error err, s)
  | (.ok res, s) =>
    match checkStatus res with
    | some err => (.error err, s)
    | none => (.ok res, s)

/-- Embedding of `(*client).PostForm`. -/
def client.PostForm (env : Env) (c : client) (endpoint : GoString) (data : Values) (s : State) :
    Except Error Response × State :=
  match client.exchange env c
      ⟨.POST, endpoint, str "application/x-www-form-urlencoded", Values.Encode data⟩ s with
  | (.error err, s) => (.error err, s)
  | (.ok res, s) =>
    match checkStatus res with
    | some err => (.error err, s)
    | none => (.ok res, s)

/-! ## The login flow -/

/-- Embedding of `(*client).initiateLogin`. -/
def client.initiateLogin (env : Env) (c : client) (clusterURL : GoString) (s : State) :
    Except Error (GoString × GoString) × State :=
  match client.Get env c (clusterURL ++ str "/login")
      [(str "redirect_uri", [str "urn:ietf:wg:oauth:2.0:oob"])] s with
  | (.error err, s) => (.error err, s)
  | (.ok res, s) =>
    let clusterID := Values.Get res.query (str "cluster_id")
    let clientID := Values.Get res.query (str "client")
    (.ok (clusterID, clientID), s)

/-- The query parameters `initiateAuth0` sends to the authorize endpoint. -/
def authorizeParams (clusterID clientID : GoString) : Values :=
  [(str "scope", [str "openid email"]),
   (str "response_type", [str "token"]),
   (str "connection", [str "github"]),
   (str "cluster_id", [clusterID]),
   (str "client_id", [clientID]),
   (str "owp", [str "true"])]

/-- Embedding of `(*client).initiateAuth0`. -/
def client.initiateAuth0 (env : Env) (c : client) (clusterID clientID : GoString) (s : State) :
    Except Error GoString × State :=
  match client.Get env c (str "https://dcos.auth0.com/authorize")
      (authorizeParams clusterID clientID) s with
  | (.error err, s) => (.error err, s)
  | (.ok res, s) =>
    match res.document with
    | .error err => (.error err, s)
    | .ok doc =>
      match Selection.Attr (Document.Find doc csrfSelector) (str "value") with
      | none => (.error (.new "Unable to extract CSRF token from response"), s)
      | some csrf => (.ok csrf, s)

/-- The decoding stage of `getLoginToken` (from `base64.StdEncoding.DecodeString` to the
final `return`): the payload is base64-decoded and unmarshalled, and the `id_token`
field is the result. -/
def decodeToken (base64Token : GoString) : Except Error GoString :=
  match DecodeString base64Token with
  | .error err => .error err
  | .ok jsonToken => Unmarshal jsonToken

/-- Embedding of `getLoginToken`. -/
def getLoginToken (res : Response) : Except Error GoString :=
  match res.document with
  | .error err => .error err
  | .ok doc =>
    let script := Selection.Text (Selection.Last (Document.Find doc scriptSelector))
    let found := FindStringSubmatch tokenMatcher script
    if found.length = 2 then decodeToken (found.getD 1 [])
    else .error (.new "Couldn't extract ACS token from response")

/-- The assignment `name, _ := input.Attr("name")`: an absent attribute reads as `""`. -/
def inputName (input : Located) : GoString :=
  (Selection.Attr [input] (str "name")).getD []

/-- The assignment `value, _ := input.Attr("value")`: an absent attribute reads as `""`. -/
def inputValue (input : Located) : GoString :=
  (Selection.Attr [input] (str "value")).getD []

/-- The form `followLoginRedirect` resubmits: `authorize=1` and then, for every input of
the selection in order, `q.Add(name, value)`. -/
def authorizeValues (inputs : Selection) : Values :=
  inputs.foldl (fun q input => Values.Add q (inputName input) (inputValue input))
    [(str "authorize", [str "1"])]

/-- Embedding of `(*client).followLoginRedirect`. -/
def client.followLoginRedirect (env : Env) (c : client) (res : Response) (s : State) :
    Except Error Response × State :=
  match res.dump with
  | .error err => (.error err, s)
  | .ok dump =>
    match res.document with
    | .error err => (.error err, s)
    | .ok doc =>
      match Selection.Attr (Document.Find doc linkSelector) (str "href") with
      | some redirectURL => client.Get env c redirectURL [] s
      | none =>
        let authorizeForm := Document.Find doc formSelector
        if authorizeForm.length ≠ 1 then
          (.error (.new "Unexpected Github response"), debug env [dump] s)
        else
          let q := authorizeValues (Selection.Find authorizeForm inputSelector)
          client.PostForm env c (str "https://github.com/login/oauth/authorize") q s

/-- Embedding of `(*client).githubAuthenticate`. -/
def client.githubAuthenticate (env : Env) (c : client) (csrfToken username password : GoString)
    (s : State) : Except Error GoString × State :=
  match client.PostForm env c (str "https://github.com/session")
      [(str "login", [username]),
       (str "password", [password]),
       (str "authenticity_token", [csrfToken])] s with
  | (.error err, s) => (.error err, s)
  | (.ok ghRes, s) =>
    match client.followLoginRedirect env c ghRes s with
    | (.error err, s) => (.error err, s)
    | (.ok tokenRes, s) => (getLoginToken tokenRes, s)

/-- Embedding of `Login`: the returned error (`none` is nil) and the final state;
`fmt.Println(acsToken)` adds the token as a line of standard output. -/
def Login (env : Env) (o : Options) (s : State) : Option Error × State :=
  match httpClient o.AllowInsecureTLS with
  | .error err => (some err, s)
  | .ok c =>
    match client.initiateLogin env c o.ClusterURL s with
    | (.error err, s) => (some err, s)
    | (.ok (clusterID, clientID), s) =>
      match client.initiateAuth0 env c clusterID clientID s with
      | (.error err, s) => (some err, s)
      | (.ok csrfToken, s) =>
        match client.githubAuthenticate env c csrfToken o.Username o.Password s with
        | (.error err, s) => (some err, s)
        | (.ok acsToken, s) => (none, { s with stdout := s.stdout ++ [acsToken] })

/-! ## Fixtures -/

/-- The state before a login attempt. -/
def State.init : State := { trace := [], log := [], stdout := [] }

/-- A network that answers the n-th request of a login attempt with the n-th response
of the list, and fails once the list is used up. -/
def scriptedEnv (debugOn : Bool) (responses : List Response) : Env :=
  { Debug := debugOn
    roundTrip := fun _ history _ =>
      match responses.get? history.length with
      | some res => .ok res
      | none => .error (.transport "connection refused") }

/-- A response with the given status, final query and parsed body. -/
def page (code : Int) (query : Values) (doc : List Node) : Response :=
  { StatusCode := code, query := query, dump := .ok (str "HTTP/1.1 dump"), document := .ok doc }

/-- The cluster's answer to step 1: the final URL carries `cluster_id=foo&client=bar`. -/
def loginRedirect : Response :=
  page 200 [(str "cluster_id", [str "foo"]), (str "client", [str "bar"])] []

/-- The authorize page with the hidden input `authenticity_token="csrf1"`. -/
def authorizePage : Response :=
  page 200 []
    [.element (str "html") []
      [.element (str "body") []
        [.element (str "form") [(str "action", str "/session")]
          [.element (str "input")
            [(str "type", str "hidden"), (str "name", str "authenticity_token"),
             (str "value", str "csrf1")] []]]]]

/-- An authorize page without the `authenticity_token` input. -/
def authorizePageNoInput : Response :=
  page 200 []
    [.element (str "html") [] [.element (str "body") [] [.element (str "form") [] []]]]

/-- An authorize page whose `authenticity_token` input has no `value` attribute. -/
def authorizePageNoValue : Response :=
  page 200 []
    [.element (str "html") []
      [.element (str "body") []
        [.element (str "input") [(str "name", str "authenticity_token")] []]]]

/-- The answer to the credential POST with the direct link (Branch A). -/
def directLinkPage : Response :=
  page 200 []
    [.element (str "html") []
      [.element (str "body") []
        [.element (str "div") [(str "class", str "container")]
          [.element (str "div") []
            [.element (str "p") []
              [.text (str "You are being redirected: "),
               .element (str "a") [(str "href", str "https://cluster/login?code=1")] []]]]]]]

/-- The answer to the credential POST with the authorize-confirmation form (Branch B). -/
def confirmationPage : Response :=
  page 200 []
    [.element (str "html") []
      [.element (str "body") []
        [.element (str "form") [(str "action", str "/login/oauth/authorize")]
          [.element (str "input") [(str "name", str "client_id"), (str "value", str "abc")] [],
           .element (str "div") []
             [.element (str "input") [(str "name", str "scope"), (str "value", str "user:email")] []],
           .element (str "input") [(str "name", str "authorize"), (str "value", str "yes")] [],
           .element (str "input") [(str "type", str "submit")] []]]]]

/-- An answer to the credential POST with neither the link nor the form (Branch C). -/
def unexpectedPage : Response :=
  page 200 [] [.element (str "html") [] [.element (str "body") [] [.text (str "Sorry")]]]

/-- An element `<script type="text/javascript">` with the given text. -/
def typedScript (text : GoString) : Node :=
  .element (str "script") [(str "type", str "text/javascript")] [.text text]

/-- The token-bearing page, its last script assigning the base64 encoding of
`{"id_token":"TOKEN"}` through a call, as the DC/OS frontend does. -/
def tokenPage : Response :=
  page 200 []
    [.element (str "html") []
      [.element (str "head") [] [typedScript (str "var x = 1;")],
       .element (str "body") []
         [typedScript (str "var value = JSON.parse(atob(\"eyJpZF90b2tlbiI6IlRPS0VOIn0=\")); done();")]]]

/-- An element `<script>` without attributes, with the given text. -/
def plainScript (text : GoString) : Node :=
  .element (str "script") [] [.text text]

/-- The text of the script of the specification's fixture: the payload's closing quote is
followed by `;` at once. -/
def fixtureScriptText : GoString :=
  str "var value = 1; document.x = \"eyJpZF90b2tlbiI6IlRPS0VOIn0=\"; "

/-- A page whose body holds the one given script. -/
def scriptPage (script : Node) : Response :=
  page 200 [] [.element (str "html") [] [.element (str "body") [] [script]]]

/-- The options of the fixture login attempts. -/
def sampleOptions : Options :=
  { ClusterURL := str "https://cluster", Username := str "user", Password := str "secret",
    AllowInsecureTLS := false }

/-! ## Predicates on runes -/

/-- A Unicode scalar value. -/
def isScalar (r : Nat) : Prop := r < 0xD800 ∨ (0xDFFF < r ∧ r < 0x110000)

/-- A character that needs no escaping in a JSON string: no control character, no
quotation mark, no backslash. -/
def plainRune (r : Nat) : Prop := 32 ≤ r ∧ r ≠ 34 ∧ r ≠ 92

/-! ## Fuel -/

/-- The statement that a successful parse consumes input and succeeds with every
sufficient fuel, for one of the three parsing functions. -/
def FuelEnough {α : Type} (parse : Nat → Nat → List Nat → Option (α × List Nat)) (fuel : Nat) :
    Prop :=
  ∀ d s v r, parse fuel d s = some (v, r) →
    r.length < s.length ∧ ∀ g, 2 * (s.length - r.length) ≤ g → parse g d s = some (v, r)

/-! # Theorems -/

set_option maxRecDepth 100000

/-! ## Helper lemmas for the flow -/

theorem debug_trace (env : Env) (a : List GoString) (s : State) :
    (debug env a s).trace = s.trace := by
  unfold debug
  split <;> rfl

theorem debug_stdout (env : Env) (a : List GoString) (s : State) :
    (debug env a s).stdout = s.stdout := by
  unfold debug
  split <;> rfl

theorem checkStatus_isSome_iff (res : Response) :
    (checkStatus res).isSome = true ↔ (res.StatusCode < 200 ∨ res.StatusCode > 206) := by
  unfold checkStatus
  by_cases h : res.StatusCode < 200 ∨ res.StatusCode > 206
  · rw [if_pos h]
    cases res.dump <;> simp [h]
  · rw [if_neg h]
    simp [h]

theorem checkStatus_eq_none_iff (res : Response) :
    checkStatus res = none ↔ (200 ≤ res.StatusCode ∧ res.StatusCode ≤ 206) := by
  have h := checkStatus_isSome_iff res
  cases hc : checkStatus res with
  | none =>
    rw [hc] at h
    simp at h
    constructor
    · intro _; omega
    · intro _; rfl
  | some e =>
    rw [hc] at h
    simp at h
    constructor
    · intro h'; cases h'
    · intro h'; omega

theorem Get_trace (env : Env) (c : client) (endpoint : GoString) (query : Values) (s : State) :
    (client.Get env c endpoint query s).2.trace =
      s.trace ++ [⟨.GET, withQuery endpoint query, [], []⟩] := by
  simp only [client.Get, client.exchange]
  generalize env.roundTrip _ _ _ = r
  cases r with
  | error e => simp [debug_trace]
  | ok res => simp only []; split <;> simp [debug_trace]

theorem Get_stdout (env : Env) (c : client) (endpoint : GoString) (query : Values) (s : State) :
    (client.Get env c endpoint query s).2.stdout = s.stdout := by
  simp only [client.Get, client.exchange]
  generalize env.roundTrip _ _ _ = r
  cases r with
  | error e => simp [debug_stdout]
  | ok res => simp only []; split <;> simp [debug_stdout]

theorem PostForm_trace (env : Env) (c : client) (endpoint : GoString) (data : Values) (s : State) :
    (client.PostForm env c endpoint data s).2.trace =
      s.trace ++ [⟨.POST, endpoint, str "application/x-www-form-urlencoded", Values.Encode data⟩] := by
  simp only [client.PostForm, client.exchange]
  generalize env.roundTrip _ _ _ = r
  cases r with
  | error e => simp
  | ok res => simp only []; split <;> simp

theorem PostForm_stdout (env : Env) (c : client) (endpoint : GoString) (data : Values) (s : State) :
    (client.PostForm env c endpoint data s).2.stdout = s.stdout := by
  simp only [client.PostForm, client.exchange]
  generalize env.roundTrip _ _ _ = r
  cases r with
  | error e => simp
  | ok res => simp only []; split <;> simp

theorem withQuery_nil (endpoint : GoString) : withQuery endpoint [] = endpoint := by
  simp [withQuery]

theorem initiateLogin_trace (env : Env) (c : client) (clusterURL : GoString) (s : State) :
    (client.initiateLogin env c clusterURL s).2.trace =
      s.trace ++ [⟨.GET, withQuery (clusterURL ++ str "/login")
        [(str "redirect_uri", [str "urn:ietf:wg:oauth:2.0:oob"])], [], []⟩] := by
  have h := Get_trace env c (clusterURL ++ str "/login")
    [(str "redirect_uri", [str "urn:ietf:wg:oauth:2.0:oob"])] s
  unfold client.initiateLogin
  split
  · next err s1 heq => rw [heq] at h; exact h
  · next res s1 heq => rw [heq] at h; exact h

theorem initiateLogin_stdout (env : Env) (c : client) (clusterURL : GoString) (s : State) :
    (client.initiateLogin env c clusterURL s).2.stdout = s.stdout := by
  have h := Get_stdout env c (clusterURL ++ str "/login")
    [(str "redirect_uri", [str "urn:ietf:wg:oauth:2.0:oob"])] s
  unfold client.initiateLogin
  split
  · next err s1 heq => rw [heq] at h; exact h
  · next res s1 heq => rw [heq] at h; exact h

theorem initiateAuth0_state (env : Env) (c : client) (clusterID clientID : GoString) (s : State) :
    (client.initiateAuth0 env c clusterID clientID s).2 =
      (client.Get env c (str "https://dcos.auth0.com/authorize")
        (authorizeParams clusterID clientID) s).2 := by
  unfold client.initiateAuth0
  split
  · next err s1 heq => rw [heq]
  · next res s1 heq =>
    rw [heq]
    split
    · rfl
    · split <;> rfl

theorem followLoginRedirect_state (env : Env) (c : client) (res : Response) (s : State) :
    (∃ l, (client.followLoginRedirect env c res s).2.trace = s.trace ++ l) ∧
    (client.followLoginRedirect env c res s).2.stdout = s.stdout := by
  unfold client.followLoginRedirect
  split
  · exact ⟨⟨[], by simp⟩, rfl⟩
  · split
    · exact ⟨⟨[], by simp⟩, rfl⟩
    · next doc hdoc =>
      split
      · exact ⟨⟨_, Get_trace _ _ _ _ _⟩, Get_stdout _ _ _ _ _⟩
      · by_cases hlen : (Document.Find doc formSelector).length ≠ 1
        · dsimp only
          rw [if_pos hlen]
          exact ⟨⟨[], by simp [debug_trace]⟩, by simp [debug_stdout]⟩
        · dsimp only
          rw [if_neg hlen]
          exact ⟨⟨_, PostForm_trace _ _ _ _ _⟩, PostForm_stdout _ _ _ _ _⟩

theorem githubAuthenticate_state (env : Env) (c : client) (csrfToken username password : GoString)
    (s : State) :
    (∃ l, (client.githubAuthenticate env c csrfToken username password s).2.trace = s.trace ++ l) ∧
    (client.githubAuthenticate env c csrfToken username password s).2.stdout = s.stdout := by
  have hp := PostForm_trace env c (str "https://github.com/session")
    [(str "login", [username]), (str "password", [password]),
     (str "authenticity_token", [csrfToken])] s
  have hq := PostForm_stdout env c (str "https://github.com/session")
    [(str "login", [username]), (str "password", [password]),
     (str "authenticity_token", [csrfToken])] s
  unfold client.githubAuthenticate
  split
  · next err s1 heq =>
    rw [heq] at hp hq
    exact ⟨⟨_, hp⟩, hq⟩
  · next ghRes s1 heq =>
    rw [heq] at hp hq
    simp only at hp hq
    obtain ⟨⟨l, hl⟩, hs⟩ := followLoginRedirect_state env c ghRes s1
    split
    · next err s2 heq2 =>
      rw [heq2] at hl hs
      simp only at hl hs
      exact ⟨⟨_, by rw [hl, hp, List.append_assoc]⟩, by rw [hs, hq]⟩
    · next tokenRes s2 heq2 =>
      rw [heq2] at hl hs
      simp only at hl hs
      exact ⟨⟨_, by rw [hl, hp, List.append_assoc]⟩, by rw [hs, hq]⟩

/-! ## `url.Values` -/

theorem lookup_Add (q : Values) (k v key : GoString) :
    Values.lookup (Values.Add q k v) key =
      if k = key then Values.lookup q key ++ [v] else Values.lookup q key := by
  induction q with
  | nil =>
    by_cases h : k = key <;> simp [Values.Add, Values.lookup, h]
  | cons e rest ih =>
    obtain ⟨k0, vs⟩ := e
    by_cases h0 : k0 = k
    · subst h0
      by_cases h : k0 = key <;> simp [Values.Add, Values.lookup, h]
    · simp only [Values.Add, if_neg h0, Values.lookup, ih]
      by_cases h1 : k0 = key
      · subst h1
        simp [h0, Ne.symm h0]
      · simp [h1]

theorem keys_Add (q : Values) (k v : GoString) :
    (Values.Add q k v).map Prod.fst =
      if k ∈ q.map Prod.fst then q.map Prod.fst else q.map Prod.fst ++ [k] := by
  induction q with
  | nil => simp [Values.Add]
  | cons e rest ih =>
    obtain ⟨k0, vs⟩ := e
    by_cases h0 : k0 = k
    · subst h0
      simp [Values.Add]
    · have h0' : ¬ k = k0 := fun h => h0 h.symm
      simp only [Values.Add, h0, if_false, List.map_cons, ih, List.mem_cons, h0', false_or]
      split <;> simp

theorem nodup_keys_Add (q : Values) (k v : GoString) (h : (q.map Prod.fst).Nodup) :
    ((Values.Add q k v).map Prod.fst).Nodup := by
  rw [keys_Add]
  split
  · exact h
  · next hk =>
    rw [List.nodup_append]
    refine ⟨h, List.nodup_singleton k, ?_⟩
    intro a ha hb
    simp only [List.mem_singleton] at hb
    subst hb
    exact hk ha

theorem mem_keys_of_lookup (q : Values) (key : GoString) (h : Values.lookup q key ≠ []) :
    key ∈ q.map Prod.fst := by
  induction q with
  | nil => simp [Values.lookup] at h
  | cons e rest ih =>
    obtain ⟨k0, vs⟩ := e
    by_cases h0 : k0 = key
    · simp [h0]
    · simp only [Values.lookup, h0, if_false] at h
      simp [ih h]

theorem insertKey_perm (k : GoString) (ks : List GoString) : (insertKey k ks).Perm (k :: ks) := by
  induction ks with
  | nil => simp [insertKey]
  | cons x xs ih =>
    simp only [insertKey]
    split
    · exact List.Perm.refl _
    · exact (List.Perm.cons x ih).trans (List.Perm.swap k x xs)

theorem sortKeys_perm (ks : List GoString) : (sortKeys ks).Perm ks := by
  induction ks with
  | nil => simp [sortKeys]
  | cons x xs ih =>
    simp only [sortKeys]
    exact (insertKey_perm x _).trans (List.Perm.cons x ih)

/-- Grouping a list of pairs by a duplicate-free list of keys that covers it keeps the
pairs. -/
theorem group_perm (L : List (GoString × GoString)) :
    ∀ K : List GoString, K.Nodup → (∀ p ∈ L, p.1 ∈ K) →
      (K.flatMap (fun k => L.filter (fun x => decide (x.1 = k)))).Perm L := by
  intro K
  induction K generalizing L with
  | nil =>
    intro _ hcover
    cases L with
    | nil => simp
    | cons p L => exact absurd (hcover p (List.mem_cons_self _ _)) (List.not_mem_nil _)
  | cons k K ih =>
    intro hK hcover
    have hK' := List.nodup_cons.1 hK
    rw [List.flatMap_cons]
    have hrest : K.flatMap (fun k' => L.filter (fun x => decide (x.1 = k'))) =
        K.flatMap (fun k' => (L.filter (fun x => !decide (x.1 = k))).filter
          (fun x => decide (x.1 = k'))) := by
      apply List.flatMap_congr
      intro k' hk'
      rw [List.filter_filter]
      apply List.filter_congr
      intro x _
      by_cases hx : x.1 = k'
      · have hne : ¬ k' = k := by
          intro e
          exact hK'.1 (e ▸ hk')
        simp [hx, hne]
      · simp [hx]
    rw [hrest]
    have hcover' : ∀ p ∈ L.filter (fun x => !decide (x.1 = k)), p.1 ∈ K := by
      intro p hp
      rw [List.mem_filter] at hp
      have h1 := hcover p hp.1
      have h2 : p.1 ≠ k := by simpa using hp.2
      rcases List.mem_cons.1 h1 with h | h
      · exact absurd h h2
      · exact h
    exact (List.Perm.append_left _ (ih _ hK'.2 hcover')).trans (List.filter_append_perm _ L)

/-- The pairs the loop of `followLoginRedirect` adds, in document order. -/
theorem lookup_foldl_Add (inputs : List Located) :
    ∀ (q : Values) (key : GoString),
      Values.lookup
        (inputs.foldl (fun q input => Values.Add q (inputName input) (inputValue input)) q) key =
      Values.lookup q key ++
        (inputs.filter (fun i => decide (inputName i = key))).map inputValue := by
  induction inputs with
  | nil => intro q key; simp
  | cons i rest ih =>
    intro q key
    rw [List.foldl_cons, ih, lookup_Add]
    by_cases h : inputName i = key <;> simp [h]

theorem nodup_keys_foldl_Add (inputs : List Located) :
    ∀ (q : Values), (q.map Prod.fst).Nodup →
      ((inputs.foldl (fun q input => Values.Add q (inputName input) (inputValue input)) q).map
        Prod.fst).Nodup := by
  induction inputs with
  | nil => intro q h; exact h
  | cons i rest ih =>
    intro q h
    rw [List.foldl_cons]
    exact ih _ (nodup_keys_Add q _ _ h)

/-! ## Escaping and reading back -/

theorem QueryEscape_cons (c : Nat) (s : List Nat) :
    QueryEscape (c :: s) =
      (if c = 32 then [43]
        else if shouldEscape c then [37, upperhex (c / 16), upperhex (c % 16)]
        else [c]) ++ QueryEscape s := by
  simp [QueryEscape]

theorem hexVal_upperhex : ∀ n, n < 16 → hexVal (upperhex n) = some n := by decide

theorem upperhex_plain (n : Nat) :
    upperhex n ≠ 38 ∧ upperhex n ≠ 61 ∧ upperhex n ≠ 59 := by
  unfold upperhex
  split <;> omega

theorem shouldEscape_false (c : Nat) (h : ¬ shouldEscape c = true) :
    c ≠ 38 ∧ c ≠ 61 ∧ c ≠ 59 ∧ c ≠ 37 ∧ c ≠ 43 := by
  simp only [shouldEscape, Bool.not_eq_true', Bool.not_eq_false, Bool.or_eq_true,
    decide_eq_true_eq, Bool.not_eq_true] at h
  omega

/-- The escaped form of a string holds no `&`, no `=` and no `;`. -/
theorem QueryEscape_plain (s : List Nat) :
    ∀ b ∈ QueryEscape s, b ≠ 38 ∧ b ≠ 61 ∧ b ≠ 59 := by
  induction s with
  | nil => intro b hb; simp [QueryEscape] at hb
  | cons c s ih =>
    intro b hb
    rw [QueryEscape_cons, List.mem_append] at hb
    rcases hb with hb | hb
    · split at hb
      · simp only [List.mem_singleton] at hb; omega
      · split at hb
        · simp only [List.mem_cons, List.mem_singleton, List.not_mem_nil, or_false] at hb
          rcases hb with h | h | h
          · omega
          · rw [h]; exact upperhex_plain _
          · rw [h]; exact upperhex_plain _
        · next hs =>
          simp only [List.mem_singleton] at hb
          have := shouldEscape_false c hs
          omega
    · exact ih b hb

/-- Unescaping undoes escaping, byte by byte. -/
theorem unescapeFrom_QueryEscape (s : List Nat) (hs : isBytes s) :
    unescapeFrom .plain (QueryEscape s) = some s := by
  induction s with
  | nil => simp [QueryEscape, unescapeFrom]
  | cons c s ih =>
    have hc : c < 256 := hs c (List.mem_cons_self _ _)
    have ih' := ih (fun b hb => hs b (List.mem_cons_of_mem _ hb))
    rw [QueryEscape_cons]
    by_cases h32 : c = 32
    · subst h32
      simp [unescapeFrom, ih']
    · rw [if_neg h32]
      by_cases he : shouldEscape c = true
      · rw [if_pos he]
        have h1 := hexVal_upperhex (c / 16) (by omega)
        have h2 := hexVal_upperhex (c % 16) (by omega)
        have h3 : c / 16 * 16 + c % 16 = c := by omega
        simp [unescapeFrom, h1, h2, h3, ih']
      · rw [if_neg he]
        have := shouldEscape_false c he
        simp [unescapeFrom, this.2.2.2.1, this.2.2.2.2, ih']

theorem QueryUnescape_QueryEscape (s : List Nat) (hs : isBytes s) :
    QueryUnescape (QueryEscape s) = some s :=
  unescapeFrom_QueryEscape s hs

theorem splitOn_ne_nil (sep : Nat) (s : List Nat) : splitOn sep s ≠ [] := by
  cases s with
  | nil => simp [splitOn]
  | cons c s =>
    rw [splitOn]
    split
    · simp
    · split <;> simp

theorem splitOn_self (sep : Nat) (a : List Nat) (ha : ∀ b ∈ a, b ≠ sep) :
    splitOn sep a = [a] := by
  induction a with
  | nil => simp [splitOn]
  | cons c a ih =>
    have hc : c ≠ sep := ha c (List.mem_cons_self _ _)
    rw [splitOn, if_neg hc, ih (fun b hb => ha b (List.mem_cons_of_mem _ hb))]

theorem splitOn_append (sep : Nat) (a rest : List Nat) (ha : ∀ b ∈ a, b ≠ sep) :
    splitOn sep (a ++ sep :: rest) = a :: splitOn sep rest := by
  induction a with
  | nil => simp [splitOn]
  | cons c a ih =>
    have hc : c ≠ sep := ha c (List.mem_cons_self _ _)
    rw [List.cons_append, splitOn, if_neg hc, ih (fun b hb => ha b (List.mem_cons_of_mem _ hb))]

theorem intercalate_cons_cons (sep x y : List Nat) (l : List (List Nat)) :
    List.intercalate sep (x :: y :: l) = x ++ sep ++ List.intercalate sep (y :: l) := by
  simp [List.intercalate, List.intersperse]

theorem splitOn_intercalate (segs : List (List Nat)) (hne : segs ≠ [])
    (hs : ∀ seg ∈ segs, ∀ b ∈ seg, b ≠ 38) :
    splitOn 38 (List.intercalate [38] segs) = segs := by
  induction segs with
  | nil => exact absurd rfl hne
  | cons x l ih =>
    cases l with
    | nil =>
      have : List.intercalate [38] [x] = x := by simp [List.intercalate, List.intersperse]
      rw [this]
      exact splitOn_self 38 x (hs x (List.mem_cons_self _ _))
    | cons y l =>
      rw [intercalate_cons_cons, List.append_assoc, List.singleton_append,
        splitOn_append 38 x _ (hs x (List.mem_cons_self _ _)),
        ih (by simp) (fun seg hseg => hs seg (List.mem_cons_of_mem _ hseg))]

theorem takeWhile_until (p : Nat → Bool) (a : List Nat) (x : Nat) (rest : List Nat)
    (ha : ∀ b ∈ a, p b = true) (hx : p x = false) :
    (a ++ x :: rest).takeWhile p = a ∧ (a ++ x :: rest).dropWhile p = x :: rest := by
  induction a with
  | nil => simp [List.takeWhile, List.dropWhile, hx]
  | cons c a ih =>
    have hc := ha c (List.mem_cons_self _ _)
    have ih' := ih (fun b hb => ha b (List.mem_cons_of_mem _ hb))
    simp [List.takeWhile, List.dropWhile, hc, ih'.1, ih'.2]

/-- A written pair is read back as it was. -/
theorem parseSegment_pair (k v : List Nat) (hk : isBytes k) (hv : isBytes v) :
    parseSegment (QueryEscape k ++ [61] ++ QueryEscape v) = some (k, v) := by
  have hsplit := takeWhile_until (fun c => !decide (c = 61)) (QueryEscape k) 61 (QueryEscape v)
    (fun b hb => by simp [(QueryEscape_plain k b hb).2.1]) (by simp)
  rw [List.append_assoc, List.singleton_append]
  unfold parseSegment
  rw [hsplit.1, hsplit.2]
  simp [QueryUnescape_QueryEscape k hk, QueryUnescape_QueryEscape v hv]

theorem parseSegments_pairs (pairs : List (GoString × GoString))
    (hb : ∀ p ∈ pairs, isBytes p.1 ∧ isBytes p.2) :
    parseSegments (pairs.map (fun kv => QueryEscape kv.1 ++ [61] ++ QueryEscape kv.2)) =
      some pairs := by
  induction pairs with
  | nil => simp [parseSegments]
  | cons p ps ih =>
    have hp := hb p (List.mem_cons_self _ _)
    have ih' := ih (fun q hq => hb q (List.mem_cons_of_mem _ hq))
    have h59 : ¬ 59 ∈ QueryEscape p.1 ++ [61] ++ QueryEscape p.2 := by
      intro hmem
      simp only [List.mem_append, List.mem_singleton] at hmem
      rcases hmem with (h | h) | h
      · exact (QueryEscape_plain _ 59 h).2.2 rfl
      · omega
      · exact (QueryEscape_plain _ 59 h).2.2 rfl
    rw [List.map_cons, parseSegments, if_neg h59, parseSegment_pair _ _ hp.1 hp.2, ih']

/-- The body `Encode` writes is read back as the pairs it wrote, in their order. -/
theorem ParseForm_Encode (q : Values)
    (hb : ∀ p ∈ Values.pairs q, isBytes p.1 ∧ isBytes p.2) :
    ParseForm (Values.Encode q) = some (Values.pairs q) := by
  unfold ParseForm Values.Encode
  cases hp : Values.pairs q with
  | nil => simp [List.intercalate, splitOn, parseSegments]
  | cons p ps =>
    rw [← hp]
    have hsegs : ∀ seg ∈ (Values.pairs q).map
        (fun kv => QueryEscape kv.1 ++ [61] ++ QueryEscape kv.2), ∀ b ∈ seg, b ≠ 38 := by
      intro seg hseg b hbm
      simp only [List.mem_map] at hseg
      obtain ⟨kv, _, rfl⟩ := hseg
      simp only [List.mem_append, List.mem_singleton] at hbm
      rcases hbm with (h | h) | h
      · exact (QueryEscape_plain _ b h).1
      · omega
      · exact (QueryEscape_plain _ b h).1
    rw [splitOn_intercalate _ (by rw [hp]; simp) hsegs]
    have hfilter : ((Values.pairs q).map
        (fun kv => QueryEscape kv.1 ++ [61] ++ QueryEscape kv.2)).filter
          (fun seg => !decide (seg = [])) =
        (Values.pairs q).map (fun kv => QueryEscape kv.1 ++ [61] ++ QueryEscape kv.2) := by
      rw [List.filter_eq_self]
      intro seg hseg
      simp only [List.mem_map] at hseg
      obtain ⟨kv, _, rfl⟩ := hseg
      simp
    rw [hfilter]
    exact parseSegments_pairs _ hb

theorem inputSelector_holds (e : Elem) (ancestors : List Elem) :
    Selector.holds inputSelector e ancestors = decide (e.tag = str "input") := by
  simp [Selector.holds, inputSelector, chainHolds, Compound.holds, Simple.holds]

mutual
theorem matchAll_input : ∀ (ancestors : List Elem) (n : Node),
    (matchAll inputSelector ancestors n).map Located.node = (subtree n).filter Node.isInput
  | ancestors, .element tag attrs children => by
    rw [matchAll, subtree, List.map_append, matchAllList_input, inputSelector_holds]
    by_cases h : tag = str "input"
    · simp [h, Node.isInput]
    · simp [h, Node.isInput]
  | _, .text _ => by simp [matchAll, subtree, Node.isInput]
  | _, .comment _ => by simp [matchAll, subtree, Node.isInput]
theorem matchAllList_input : ∀ (ancestors : List Elem) (ns : List Node),
    (matchAllList inputSelector ancestors ns).map Located.node =
      (subtreeList ns).filter Node.isInput
  | _, [] => by simp [matchAllList, subtreeList]
  | ancestors, n :: ns => by
    rw [matchAllList, subtreeList, List.map_append, List.filter_append,
      matchAll_input ancestors n, matchAllList_input ancestors ns]
end

theorem Find_input_nodes (form : Located) :
    (Selection.Find [form] inputSelector).map Located.node =
      (Node.inside form.node).filter Node.isInput := by
  simp only [Selection.Find, List.flatMap_cons, List.flatMap_nil, List.append_nil, Located.Find]
  cases form.node with
  | element tag attrs children => simp [Node.inside, matchAllList_input]
  | text d => simp [Node.inside]
  | comment d => simp [Node.inside]

theorem lookup_authorizeValues (inputs : Selection) (key : GoString) :
    Values.lookup (authorizeValues inputs) key =
      (if key = str "authorize" then [str "1"] else []) ++
        (inputs.filter (fun i => decide (inputName i = key))).map inputValue := by
  rw [authorizeValues, lookup_foldl_Add]
  congr 1
  by_cases h : key = str "authorize"
  · simp [Values.lookup, h]
  · have h' : ¬ str "authorize" = key := fun e => h e.symm
    simp [Values.lookup, h, h']

theorem pairs_authorizeValues (inputs : Selection) :
    (Values.pairs (authorizeValues inputs)).Perm
      ((str "authorize", str "1") :: inputs.map (fun i => (inputName i, inputValue i))) := by
  have hgroup : ∀ k, (Values.lookup (authorizeValues inputs) k).map (fun x => (k, x)) =
      ((str "authorize", str "1") :: inputs.map (fun i => (inputName i, inputValue i))).filter
        (fun x => decide (x.1 = k)) := by
    intro k
    rw [lookup_authorizeValues, List.filter_cons]
    have hin : ((inputs.filter (fun i => decide (inputName i = k))).map inputValue).map
        (fun x => (k, x)) =
        (inputs.map (fun i => (inputName i, inputValue i))).filter (fun x => decide (x.1 = k)) := by
      induction inputs with
      | nil => simp
      | cons i rest ih =>
        by_cases h : inputName i = k
        · simp only [List.filter_cons, h, decide_True, if_true, List.map_cons, ih]
        · simp only [List.filter_cons, h, decide_False, Bool.false_eq_true, if_false, List.map_cons]
          exact ih
    by_cases h : k = str "authorize"
    · subst h
      simp only [if_true, List.map_append, List.map_cons, List.map_nil, decide_True, hin]
      rfl
    · have h' : ¬ str "authorize" = k := fun e => h e.symm
      simp only [h, if_false, List.nil_append, hin, h', decide_False]
      simp
  unfold Values.pairs
  have hfun : (fun k => (Values.lookup (authorizeValues inputs) k).map (fun x => (k, x))) =
      (fun k => ((str "authorize", str "1") ::
        inputs.map (fun i => (inputName i, inputValue i))).filter (fun x => decide (x.1 = k))) :=
    funext hgroup
  rw [hfun]
  apply group_perm
  · apply (sortKeys_perm _).nodup_iff.2
    exact nodup_keys_foldl_Add inputs _ (by simp)
  · intro p hp
    apply (sortKeys_perm _).mem_iff.2
    apply mem_keys_of_lookup
    intro hnil
    have hmem : p ∈ ((str "authorize", str "1") ::
        inputs.map (fun i => (inputName i, inputValue i))).filter (fun x => decide (x.1 = p.1)) := by
      rw [List.mem_filter]
      exact ⟨hp, by simp⟩
    rw [← hgroup, hnil] at hmem
    simp at hmem

theorem attrValue_eq_lookup (attrs : List (GoString × GoString)) (key : GoString) :
    attrValue attrs key = List.lookup key attrs := by
  induction attrs with
  | nil => rfl
  | cons a attrs ih =>
    obtain ⟨k, v⟩ := a
    by_cases h : k = key
    · subst h
      simp [attrValue, List.lookup]
    · have h' : (key == k) = false := by
        simp only [beq_eq_false_iff_ne, ne_eq]
        exact fun e => h e.symm
      simp [attrValue, List.lookup, h, h', ih]

theorem input_nameValue (i : Located) :
    (inputName i, inputValue i) = Node.nameValue i.node := by
  obtain ⟨node, ancestors⟩ := i
  cases node with
  | element tag attrs children =>
    simp [inputName, inputValue, Selection.Attr, Node.nameValue, attrValue_eq_lookup]
  | text d => rfl
  | comment d => rfl

/-- The pairs read off the inputs are the fields of the form as the document has them. -/
theorem inputs_formFields (form : Located) :
    (Selection.Find [form] inputSelector).map (fun i => (inputName i, inputValue i)) =
      formFields form.node := by
  have h : (fun i : Located => (inputName i, inputValue i)) = Node.nameValue ∘ Located.node :=
    funext input_nameValue
  rw [h, ← List.map_map, Find_input_nodes]
  rfl

theorem filter_map_fields (inputs : List Located) (key : GoString) :
    (inputs.filter (fun i => decide (inputName i = key))).map inputValue =
      ((inputs.map (fun i => (inputName i, inputValue i))).filter
        (fun p => decide (p.1 = key))).map Prod.snd := by
  induction inputs with
  | nil => rfl
  | cons i rest ih =>
    by_cases h : inputName i = key
    · simp only [List.filter_cons, h, decide_True, if_true, List.map_cons, ih]
    · simp only [List.filter_cons, h, decide_False, Bool.false_eq_true, if_false, List.map_cons,
        ih]

/-- The values written under one key are the values of that key. -/
theorem pairs_filter (q : Values) (hq : (q.map Prod.fst).Nodup) (key : GoString) :
    ((Values.pairs q).filter (fun p => decide (p.1 = key))).map Prod.snd =
      Values.lookup q key := by
  have hgen : ∀ K : List GoString, K.Nodup →
      ((K.flatMap (fun k => (Values.lookup q k).map (fun x => (k, x)))).filter
        (fun p => decide (p.1 = key))).map Prod.snd =
        if key ∈ K then Values.lookup q key else [] := by
    intro K
    induction K with
    | nil => intro _; simp
    | cons k K ih =>
      intro hK
      have hK' := List.nodup_cons.1 hK
      rw [List.flatMap_cons, List.filter_append, List.map_append, ih hK'.2]
      by_cases hk : k = key
      · subst hk
        have hall : ((Values.lookup q k).map (fun x => (k, x))).filter
            (fun p => decide (p.1 = k)) = (Values.lookup q k).map (fun x => (k, x)) := by
          rw [List.filter_eq_self]
          intro p hp
          simp only [List.mem_map] at hp
          obtain ⟨x, _, rfl⟩ := hp
          simp
        rw [hall]
        simp [hK'.1]
      · have hnone : ((Values.lookup q k).map (fun x => (k, x))).filter
            (fun p => decide (p.1 = key)) = [] := by
          rw [List.filter_eq_nil_iff]
          intro p hp
          simp only [List.mem_map] at hp
          obtain ⟨x, _, rfl⟩ := hp
          simp [hk]
        rw [hnone]
        have hk' : ¬ key = k := fun e => hk e.symm
        simp [hk']
  unfold Values.pairs
  rw [hgen _ ((sortKeys_perm _).nodup_iff.2 hq)]
  split
  · rfl
  · next hmem =>
    by_cases hl : Values.lookup q key = []
    · exact hl.symm
    · exact absurd ((sortKeys_perm _).mem_iff.2 (mem_keys_of_lookup q key hl)) hmem

theorem nodup_keys_authorizeValues (inputs : Selection) :
    ((authorizeValues inputs).map Prod.fst).Nodup := by
  unfold authorizeValues
  exact nodup_keys_foldl_Add inputs _ (by simp)

/-- Claim C10 (Branch B resubmission).  For a response document with no direct-link href
and exactly one authorize form, `followLoginRedirect` issues one request, the POST to
`https://github.com/login/oauth/authorize` of the form `q`, with the URL encoding of `q`
as its body.  The inputs read are exactly the `input` elements inside the form, in
document order, and the pairs taken from them are their `name` and `value` attributes as
the document has them (the empty string for an absent attribute).  For every field name,
the values of `q` are the injected `"1"` (under `authorize` only) followed by the `value`
attributes of the inputs of that name in document order.  The body itself, read back as
a receiver reads it, holds exactly `authorize=1` and one pair per input, nothing else:
the pairs written are a rearrangement of those (the keys are sorted), and under every
field name the values come unaltered and in document order, the injected `"1"` first. -/
theorem authorize_form_resubmitted (env : Env) (c : client) (res : Response) (s : State)
    (dump : GoString) (doc : List Node) (form : Located)
    (hdump : res.dump = .ok dump) (hdoc : res.document = .ok doc)
    (hnone : Selection.Attr (Document.Find doc linkSelector) (str "href") = none)
    (hone : Document.Find doc formSelector = [form]) :
    client.followLoginRedirect env c res s =
      client.PostForm env c (str "https://github.com/login/oauth/authorize")
        (authorizeValues (Selection.Find [form] inputSelector)) s ∧
    (client.followLoginRedirect env c res s).2.trace = s.trace ++
      [⟨.POST, str "https://github.com/login/oauth/authorize",
        str "application/x-www-form-urlencoded",
        Values.Encode (authorizeValues (Selection.Find [form] inputSelector))⟩] ∧
    (Selection.Find [form] inputSelector).map Located.node =
      (Node.inside form.node).filter Node.isInput ∧
    (Selection.Find [form] inputSelector).map (fun i => (inputName i, inputValue i)) =
      formFields form.node ∧
    (∀ key, Values.lookup (authorizeValues (Selection.Find [form] inputSelector)) key =
      (if key = str "authorize" then [str "1"] else []) ++
        ((formFields form.node).filter (fun p => decide (p.1 = key))).map Prod.snd) ∧
    ((∀ p ∈ formFields form.node, isBytes p.1 ∧ isBytes p.2) →
      ∃ written,
        ParseForm (Values.Encode (authorizeValues (Selection.Find [form] inputSelector))) =
          some written ∧
        written.Perm ((str "authorize", str "1") :: formFields form.node) ∧
        ∀ key, (written.filter (fun p => decide (p.1 = key))).map Prod.snd =
          (if key = str "authorize" then [str "1"] else []) ++
            ((formFields form.node).filter (fun p => decide (p.1 = key))).map Prod.snd) := by
  have h : client.followLoginRedirect env c res s =
      client.PostForm env c (str "https://github.com/login/oauth/authorize")
        (authorizeValues (Selection.Find [form] inputSelector)) s := by
    simp only [client.followLoginRedirect, hdump, hdoc, hnone, hone]
    rw [if_neg (by simp)]
  have hfields := inputs_formFields form
  have hlookup : ∀ key,
      Values.lookup (authorizeValues (Selection.Find [form] inputSelector)) key =
        (if key = str "authorize" then [str "1"] else []) ++
          ((formFields form.node).filter (fun p => decide (p.1 = key))).map Prod.snd := by
    intro key
    rw [lookup_authorizeValues, filter_map_fields, hfields]
  have hperm := pairs_authorizeValues (Selection.Find [form] inputSelector)
  rw [hfields] at hperm
  refine ⟨h, ?_, Find_input_nodes form, hfields, hlookup, ?_⟩
  · rw [h, PostForm_trace]
  · intro hbytes
    have hb : ∀ p ∈ Values.pairs (authorizeValues (Selection.Find [form] inputSelector)),
        isBytes p.1 ∧ isBytes p.2 := by
      intro p hp
      have hp' := hperm.mem_iff.1 hp
      rcases List.mem_cons.1 hp' with heq | hmem
      · subst heq
        constructor <;> (unfold isBytes; decide)
      · exact hbytes p hmem
    refine ⟨_, ParseForm_Encode _ hb, hperm, ?_⟩
    intro key
    rw [pairs_filter _ (nodup_keys_authorizeValues _) key]
    exact hlookup key

/-- Witness of C10: the confirmation page of the fixtures, whose form holds four inputs
(one nested in a `div`, one named `authorize`, one without name and value).  The body
posted is `=&authorize=1&authorize=yes&client_id=abc&scope=user%3Aemail`, and it reads
back as the injected pair and the four fields. -/
theorem authorize_form_resubmitted_witness :
    (client.followLoginRedirect (scriptedEnv false [tokenPage]) ⟨false⟩ confirmationPage
        State.init).2.trace =
      [⟨.POST, str "https://github.com/login/oauth/authorize",
        str "application/x-www-form-urlencoded",
        str "=&authorize=1&authorize=yes&client_id=abc&scope=user%3Aemail"⟩] ∧
    formFields
        (.element (str "form") [(str "action", str "/login/oauth/authorize")]
          [.element (str "input") [(str "name", str "client_id"), (str "value", str "abc")] [],
           .element (str "div") []
             [.element (str "input") [(str "name", str "scope"), (str "value", str "user:email")] []],
           .element (str "input") [(str "name", str "authorize"), (str "value", str "yes")] [],
           .element (str "input") [(str "type", str "submit")] []]) =
      [(str "client_id", str "abc"), (str "scope", str "user:email"),
       (str "authorize", str "yes"), ([], [])] ∧
    ParseForm (str "=&authorize=1&authorize=yes&client_id=abc&scope=user%3Aemail") =
      some [([], []), (str "authorize", str "1"), (str "authorize", str "yes"),
        (str "client_id", str "abc"), (str "scope", str "user:email")] :=
  ⟨(authorize_form_resubmitted (scriptedEnv false [tokenPage]) ⟨false⟩ confirmationPage State.init
      (str "HTTP/1.1 dump") _
      ⟨.element (str "form") [(str "action", str "/login/oauth/authorize")]
          [.element (str "input") [(str "name", str "client_id"), (str "value", str "abc")] [],
           .element (str "div") []
             [.element (str "input") [(str "name", str "scope"), (str "value", str "user:email")] []],
           .element (str "input") [(str "name", str "authorize"), (str "value", str "yes")] [],
           .element (str "input") [(str "type", str "submit")] []],
        [⟨str "body", []⟩, ⟨str "html", []⟩]⟩
      rfl rfl (by decide) rfl).2.1,
   by decide, by decide⟩

/-- Claim C1 (status gate). `checkStatus` returns a non-nil error exactly for the status
codes below 200 or above 206.  Whenever the transport answers the request of
`client.Get` (resp. `client.PostForm`) with a response `res`, the call returns an error
and no response if and only if the status code of `res` is below 200 or above 206, and
for a code from 200 to 206 it returns `res` itself and no error. -/
theorem status_gate (env : Env) (c : client) (endpoint : GoString) (query data : Values)
    (s : State) (res : Response) :
    ((checkStatus res).isSome = true ↔ (res.StatusCode < 200 ∨ res.StatusCode > 206)) ∧
    (env.roundTrip c.InsecureSkipVerify s.trace ⟨.GET, withQuery endpoint query, [], []⟩ = .ok res →
      ((∃ err, (client.Get env c endpoint query s).1 = .error err) ↔
        (res.StatusCode < 200 ∨ res.StatusCode > 206)) ∧
      ((200 ≤ res.StatusCode ∧ res.StatusCode ≤ 206) →
        (client.Get env c endpoint query s).1 = .ok res)) ∧
    (env.roundTrip c.InsecureSkipVerify s.trace
        ⟨.POST, endpoint, str "application/x-www-form-urlencoded", Values.Encode data⟩ = .ok res →
      ((∃ err, (client.PostForm env c endpoint data s).1 = .error err) ↔
        (res.StatusCode < 200 ∨ res.StatusCode > 206)) ∧
      ((200 ≤ res.StatusCode ∧ res.StatusCode ≤ 206) →
        (client.PostForm env c endpoint data s).1 = .ok res)) := by
  have hs := checkStatus_isSome_iff res
  refine ⟨hs, ?_, ?_⟩
  · intro hget
    simp only [client.Get, client.exchange, debug_trace, hget]
    cases hc : checkStatus res with
    | none => rw [hc] at hs; simp at hs; simp; omega
    | some e => rw [hc] at hs; simp at hs; simp; omega
  · intro hpost
    simp only [client.PostForm, client.exchange, hpost]
    cases hc : checkStatus res with
    | none => rw [hc] at hs; simp at hs; simp; omega
    | some e => rw [hc] at hs; simp at hs; simp; omega

/-- Witness of C1: a network answering 404 makes both calls fail, and the gate is
exercised on the response `page 404`. -/
theorem status_gate_witness :
    (∃ err, (client.Get (scriptedEnv false [page 404 [] []]) ⟨false⟩ (str "https://cluster/login") []
        State.init).1 = .error err) ∧
    (∃ err, (client.PostForm (scriptedEnv false [page 404 [] []]) ⟨false⟩ (str "https://cluster/login")
        [] State.init).1 = .error err) ∧
    (client.Get (scriptedEnv false [page 206 [] []]) ⟨false⟩ (str "https://cluster/login") []
        State.init).1 = .ok (page 206 [] []) ∧
    (client.PostForm (scriptedEnv false [page 200 [] []]) ⟨false⟩ (str "https://cluster/login") []
        State.init).1 = .ok (page 200 [] []) :=
  ⟨((status_gate (scriptedEnv false [page 404 [] []]) ⟨false⟩ (str "https://cluster/login") [] []
      State.init (page 404 [] [])).2.1 rfl).1.2 (by decide),
   ((status_gate (scriptedEnv false [page 404 [] []]) ⟨false⟩ (str "https://cluster/login") [] []
      State.init (page 404 [] [])).2.2 rfl).1.2 (by decide),
   ((status_gate (scriptedEnv false [page 206 [] []]) ⟨false⟩ (str "https://cluster/login") [] []
      State.init (page 206 [] [])).2.1 rfl).2 (by decide),
   ((status_gate (scriptedEnv false [page 200 [] []]) ⟨false⟩ (str "https://cluster/login") [] []
      State.init (page 200 [] [])).2.2 rfl).2 (by decide)⟩

/-- Claim C2 (branch selection).  For a credential-submission response whose dump and
parsed document are available: if the first element matching `.container div p a` has
an `href`, `followLoginRedirect` is the GET of that href, and the only request it adds
to the trace is that GET; if there is no such href and exactly one form with action
`/login/oauth/authorize` matches, the only request it adds is a POST to
`https://github.com/login/oauth/authorize`; if there is no such href and the number of
matching forms is not one, it returns the error "Unexpected Github response" and adds
no request. -/
theorem followLoginRedirect_branches (env : Env) (c : client) (res : Response) (s : State)
    (dump : GoString) (doc : List Node)
    (hdump : res.dump = .ok dump) (hdoc : res.document = .ok doc) :
    (∀ href, Selection.Attr (Document.Find doc linkSelector) (str "href") = some href →
      client.followLoginRedirect env c res s = client.Get env c href [] s ∧
      (client.followLoginRedirect env c res s).2.trace = s.trace ++ [⟨.GET, href, [], []⟩]) ∧
    (Selection.Attr (Document.Find doc linkSelector) (str "href") = none →
      (Document.Find doc formSelector).length = 1 →
      ∃ q, client.followLoginRedirect env c res s =
          client.PostForm env c (str "https://github.com/login/oauth/authorize") q s ∧
        (client.followLoginRedirect env c res s).2.trace = s.trace ++
          [⟨.POST, str "https://github.com/login/oauth/authorize",
            str "application/x-www-form-urlencoded", Values.Encode q⟩]) ∧
    (Selection.Attr (Document.Find doc linkSelector) (str "href") = none →
      (Document.Find doc formSelector).length ≠ 1 →
      (client.followLoginRedirect env c res s).1 = .error (.new "Unexpected Github response") ∧
      (client.followLoginRedirect env c res s).2.trace = s.trace) := by
  refine ⟨?_, ?_, ?_⟩
  · intro href hhref
    have h : client.followLoginRedirect env c res s = client.Get env c href [] s := by
      simp only [client.followLoginRedirect, hdump, hdoc, hhref]
    refine ⟨h, ?_⟩
    rw [h, Get_trace, withQuery_nil]
  · intro hnone hone
    refine ⟨authorizeValues (Selection.Find (Document.Find doc formSelector) inputSelector), ?_⟩
    have h : client.followLoginRedirect env c res s =
        client.PostForm env c (str "https://github.com/login/oauth/authorize")
          (authorizeValues (Selection.Find (Document.Find doc formSelector) inputSelector)) s := by
      simp only [client.followLoginRedirect, hdump, hdoc, hnone]
      rw [if_neg (by simp [hone])]
    refine ⟨h, ?_⟩
    rw [h, PostForm_trace]
  · intro hnone hne
    have h : client.followLoginRedirect env c res s =
        (.error (.new "Unexpected Github response"), debug env [dump] s) := by
      simp only [client.followLoginRedirect, hdump, hdoc, hnone]
      rw [if_pos hne]
    rw [h]
    exact ⟨rfl, debug_trace _ _ _⟩

/-- Witness of C2: the three branches on the fixtures `directLinkPage`,
`confirmationPage` and `unexpectedPage`. -/
theorem followLoginRedirect_branches_witness :
    (client.followLoginRedirect (scriptedEnv false [tokenPage]) ⟨false⟩ directLinkPage State.init).2.trace
      = State.init.trace ++ [⟨.GET, str "https://cluster/login?code=1", [], []⟩] ∧
    (∃ q, client.followLoginRedirect (scriptedEnv false [tokenPage]) ⟨false⟩ confirmationPage State.init =
          client.PostForm (scriptedEnv false [tokenPage]) ⟨false⟩
            (str "https://github.com/login/oauth/authorize") q State.init ∧
        (client.followLoginRedirect (scriptedEnv false [tokenPage]) ⟨false⟩ confirmationPage
          State.init).2.trace = State.init.trace ++
          [⟨.POST, str "https://github.com/login/oauth/authorize",
            str "application/x-www-form-urlencoded", Values.Encode q⟩]) ∧
    ((client.followLoginRedirect (scriptedEnv false [tokenPage]) ⟨false⟩ unexpectedPage State.init).1
        = .error (.new "Unexpected Github response") ∧
      (client.followLoginRedirect (scriptedEnv false [tokenPage]) ⟨false⟩ unexpectedPage
        State.init).2.trace = State.init.trace) :=
  ⟨((followLoginRedirect_branches (scriptedEnv false [tokenPage]) ⟨false⟩ directLinkPage State.init
      (str "HTTP/1.1 dump") _ rfl rfl).1 (str "https://cluster/login?code=1") (by decide)).2,
   (followLoginRedirect_branches (scriptedEnv false [tokenPage]) ⟨false⟩ confirmationPage State.init
      (str "HTTP/1.1 dump") _ rfl rfl).2.1 (by decide) (by decide),
   (followLoginRedirect_branches (scriptedEnv false [tokenPage]) ⟨false⟩ unexpectedPage State.init
      (str "HTTP/1.1 dump") _ rfl rfl).2.2 (by decide) (by decide)⟩

/-- Claim C6 (missing CSRF token).  When step 1 has succeeded and the authorize page that
the GET of step 2 returns has no `value` attribute on the first match of
`input[name="authenticity_token"]` (in particular when nothing matches),
`initiateAuth0` returns the error "Unable to extract CSRF token from response", `Login`
returns that error, the requests of the login attempt are the two GETs of steps 1 and 2
(no POST), and standard output is untouched. -/
theorem missing_csrf_aborts (env : Env) (o : Options) (s s1 s2 : State)
    (ids : GoString × GoString) (res : Response) (doc : List Node)
    (h1 : client.initiateLogin env ⟨o.AllowInsecureTLS⟩ o.ClusterURL s = (.ok ids, s1))
    (h2 : client.Get env ⟨o.AllowInsecureTLS⟩ (str "https://dcos.auth0.com/authorize")
      (authorizeParams ids.1 ids.2) s1 = (.ok res, s2))
    (hdoc : res.document = .ok doc)
    (hcsrf : Document.Find doc csrfSelector = [] ∨
      Selection.Attr (Document.Find doc csrfSelector) (str "value") = none) :
    client.initiateAuth0 env ⟨o.AllowInsecureTLS⟩ ids.1 ids.2 s1 =
      (.error (.new "Unable to extract CSRF token from response"), s2) ∧
    Login env o s = (some (.new "Unable to extract CSRF token from response"), s2) ∧
    s2.trace = s.trace ++
      [⟨.GET, withQuery (o.ClusterURL ++ str "/login")
          [(str "redirect_uri", [str "urn:ietf:wg:oauth:2.0:oob"])], [], []⟩,
       ⟨.GET, withQuery (str "https://dcos.auth0.com/authorize") (authorizeParams ids.1 ids.2),
          [], []⟩] ∧
    (∀ r ∈ s2.trace, r ∈ s.trace ∨ r.method = .GET) ∧
    s2.stdout = s.stdout := by
  have hattr : Selection.Attr (Document.Find doc csrfSelector) (str "value") = none := by
    rcases hcsrf with h | h
    · rw [h]; rfl
    · exact h
  have hauth : client.initiateAuth0 env ⟨o.AllowInsecureTLS⟩ ids.1 ids.2 s1 =
      (.error (.new "Unable to extract CSRF token from response"), s2) := by
    simp only [client.initiateAuth0, h2, hdoc, hattr]
  have htrace : s2.trace = s.trace ++
      [⟨.GET, withQuery (o.ClusterURL ++ str "/login")
          [(str "redirect_uri", [str "urn:ietf:wg:oauth:2.0:oob"])], [], []⟩,
       ⟨.GET, withQuery (str "https://dcos.auth0.com/authorize") (authorizeParams ids.1 ids.2),
          [], []⟩] := by
    have t1 := initiateLogin_trace env ⟨o.AllowInsecureTLS⟩ o.ClusterURL s
    have t2 := Get_trace env ⟨o.AllowInsecureTLS⟩ (str "https://dcos.auth0.com/authorize")
      (authorizeParams ids.1 ids.2) s1
    rw [h1] at t1
    rw [h2] at t2
    simp only at t1 t2
    rw [t2, t1, List.append_assoc]
    rfl
  refine ⟨hauth, ?_, htrace, ?_, ?_⟩
  · obtain ⟨a, b⟩ := ids
    simp only [Login, httpClient, h1]
    simp only at hauth
    simp only [hauth]
  · intro r hr
    rw [htrace] at hr
    simp only [List.mem_append, List.mem_cons, List.mem_singleton, List.not_mem_nil, or_false] at hr
    rcases hr with h | h | h
    · exact Or.inl h
    · right; rw [h]
    · right; rw [h]
  · have t1 := initiateLogin_stdout env ⟨o.AllowInsecureTLS⟩ o.ClusterURL s
    have t2 := Get_stdout env ⟨o.AllowInsecureTLS⟩ (str "https://dcos.auth0.com/authorize")
      (authorizeParams ids.1 ids.2) s1
    rw [h1] at t1
    rw [h2] at t2
    simp only at t1 t2
    rw [t2, t1]

/-- Witness of C6: the authorize page without the input, and the one whose input has
no `value` attribute. -/
theorem missing_csrf_aborts_witness :
    Login (scriptedEnv false [loginRedirect, authorizePageNoInput, directLinkPage, tokenPage])
        sampleOptions State.init =
      (some (.new "Unable to extract CSRF token from response"),
        (client.Get (scriptedEnv false [loginRedirect, authorizePageNoInput, directLinkPage, tokenPage])
          ⟨false⟩ (str "https://dcos.auth0.com/authorize") (authorizeParams (str "foo") (str "bar"))
          (client.initiateLogin
            (scriptedEnv false [loginRedirect, authorizePageNoInput, directLinkPage, tokenPage])
            ⟨false⟩ (str "https://cluster") State.init).2).2) ∧
    Login (scriptedEnv false [loginRedirect, authorizePageNoValue, directLinkPage, tokenPage])
        sampleOptions State.init =
      (some (.new "Unable to extract CSRF token from response"),
        (client.Get (scriptedEnv false [loginRedirect, authorizePageNoValue, directLinkPage, tokenPage])
          ⟨false⟩ (str "https://dcos.auth0.com/authorize") (authorizeParams (str "foo") (str "bar"))
          (client.initiateLogin
            (scriptedEnv false [loginRedirect, authorizePageNoValue, directLinkPage, tokenPage])
            ⟨false⟩ (str "https://cluster") State.init).2).2) :=
  ⟨(missing_csrf_aborts
      (scriptedEnv false [loginRedirect, authorizePageNoInput, directLinkPage, tokenPage])
      sampleOptions State.init _ _ (str "foo", str "bar") authorizePageNoInput _
      rfl rfl rfl (Or.inl rfl)).2.1,
   (missing_csrf_aborts
      (scriptedEnv false [loginRedirect, authorizePageNoValue, directLinkPage, tokenPage])
      sampleOptions State.init _ _ (str "foo", str "bar") authorizePageNoValue _
      rfl rfl rfl (Or.inr (by decide))).2.1⟩

/-- The query of `initiateLogin`. -/
theorem initiateLogin_of_Get (env : Env) (c : client) (clusterURL : GoString) (s s1 : State)
    (res : Response)
    (h : client.Get env c (clusterURL ++ str "/login")
      [(str "redirect_uri", [str "urn:ietf:wg:oauth:2.0:oob"])] s = (.ok res, s1)) :
    client.initiateLogin env c clusterURL s =
      (.ok (Values.Get res.query (str "cluster_id"), Values.Get res.query (str "client")), s1) := by
  simp only [client.initiateLogin, h]

/-- Counterexample to C7: the final URL of the fixture carries `client=bar` but no
`cluster_id`; the GET succeeds, and `initiateLogin` returns the identifiers `""` and
`"bar"` with a nil error instead of failing. -/
theorem initiateLogin_missing_identity_no_error :
    Values.lookup (page 200 [(str "client", [str "bar"])] []).query (str "cluster_id") = [] ∧
    (client.Get (scriptedEnv false [page 200 [(str "client", [str "bar"])] []]) ⟨false⟩
      (str "https://cluster" ++ str "/login")
      [(str "redirect_uri", [str "urn:ietf:wg:oauth:2.0:oob"])] State.init).1 =
        .ok (page 200 [(str "client", [str "bar"])] []) ∧
    (client.initiateLogin (scriptedEnv false [page 200 [(str "client", [str "bar"])] []]) ⟨false⟩
      (str "https://cluster") State.init).1 = .ok ([], str "bar") := by
  refine ⟨by decide, rfl, by decide⟩

/-- Claim C7, amended.  For every successful GET of `<clusterURL>/login`, `initiateLogin`
returns no error: it returns the first `cluster_id` value and the first `client` value
of the query of the final URL, and the empty string for a parameter that is absent.
`Login` then starts step 2 with these values: the next request of the attempt is the
GET of the authorize endpoint carrying them. -/
theorem initiateLogin_returns_query_values (env : Env) (o : Options) (s s1 : State)
    (res : Response)
    (h : client.Get env ⟨o.AllowInsecureTLS⟩ (o.ClusterURL ++ str "/login")
      [(str "redirect_uri", [str "urn:ietf:wg:oauth:2.0:oob"])] s = (.ok res, s1)) :
    client.initiateLogin env ⟨o.AllowInsecureTLS⟩ o.ClusterURL s =
      (.ok (Values.Get res.query (str "cluster_id"), Values.Get res.query (str "client")), s1) ∧
    (Values.lookup res.query (str "cluster_id") = [] → Values.Get res.query (str "cluster_id") = []) ∧
    (Values.lookup res.query (str "client") = [] → Values.Get res.query (str "client") = []) ∧
    (∃ rest, (Login env o s).2.trace = s1.trace ++
      ⟨.GET, withQuery (str "https://dcos.auth0.com/authorize")
        (authorizeParams (Values.Get res.query (str "cluster_id"))
          (Values.Get res.query (str "client"))), [], []⟩ :: rest) := by
  have hl := initiateLogin_of_Get env ⟨o.AllowInsecureTLS⟩ o.ClusterURL s s1 res h
  refine ⟨hl, ?_, ?_, ?_⟩
  · intro hk; simp [Values.Get, hk]
  · intro hk; simp [Values.Get, hk]
  · have ha := initiateAuth0_state env ⟨o.AllowInsecureTLS⟩ (Values.Get res.query (str "cluster_id"))
      (Values.Get res.query (str "client")) s1
    have hg := Get_trace env ⟨o.AllowInsecureTLS⟩ (str "https://dcos.auth0.com/authorize")
      (authorizeParams (Values.Get res.query (str "cluster_id"))
        (Values.Get res.query (str "client"))) s1
    rw [← ha] at hg
    simp only [Login, httpClient, hl]
    cases hr : client.initiateAuth0 env ⟨o.AllowInsecureTLS⟩ (Values.Get res.query (str "cluster_id"))
      (Values.Get res.query (str "client")) s1 with
    | mk r s2 =>
      rw [hr] at hg
      simp only at hg
      cases r with
      | error e => exact ⟨[], by simp [hg]⟩
      | ok csrf =>
        simp only
        obtain ⟨⟨l, hlt⟩, _⟩ := githubAuthenticate_state env ⟨o.AllowInsecureTLS⟩ csrf
          o.Username o.Password s2
        cases hg3 : client.githubAuthenticate env ⟨o.AllowInsecureTLS⟩ csrf o.Username o.Password s2 with
        | mk r3 s3 =>
          rw [hg3] at hlt
          simp only at hlt
          cases r3 with
          | error e => exact ⟨l, by simp [hlt, hg]⟩
          | ok tok => exact ⟨l, by simp [hlt, hg]⟩

/-- Witness of C7, amended: the final URL lacks `cluster_id`. -/
theorem initiateLogin_returns_query_values_witness :
    client.initiateLogin
        (scriptedEnv false [page 200 [(str "client", [str "bar"])] [], authorizePage])
        ⟨sampleOptions.AllowInsecureTLS⟩ sampleOptions.ClusterURL State.init =
      (.ok (Values.Get (page 200 [(str "client", [str "bar"])] []).query (str "cluster_id"),
          Values.Get (page 200 [(str "client", [str "bar"])] []).query (str "client")),
        (client.Get (scriptedEnv false [page 200 [(str "client", [str "bar"])] [], authorizePage])
          ⟨false⟩ (str "https://cluster" ++ str "/login")
          [(str "redirect_uri", [str "urn:ietf:wg:oauth:2.0:oob"])] State.init).2) :=
  (initiateLogin_returns_query_values
    (scriptedEnv false [page 200 [(str "client", [str "bar"])] [], authorizePage])
    sampleOptions State.init _ (page 200 [(str "client", [str "bar"])] []) rfl).1

/-- Claim C8 (fail-fast, sole output line).  `Login` runs `initiateLogin`, then
`initiateAuth0` on the identifiers and the state step 1 left, then `githubAuthenticate`
on the CSRF token and the state step 2 left.  If a step returns an error, `Login`
returns exactly that error, ends in the state that step left (no later step has run)
and has written nothing to standard output.  `Login` returns nil if and only if the
three steps succeed, and then standard output has gained exactly one line, the token
returned by `githubAuthenticate`. -/
theorem login_fail_fast (env : Env) (o : Options) (s : State) :
    (∀ err s1, client.initiateLogin env ⟨o.AllowInsecureTLS⟩ o.ClusterURL s = (.error err, s1) →
      Login env o s = (some err, s1) ∧ s1.stdout = s.stdout) ∧
    (∀ ids s1 err s2,
      client.initiateLogin env ⟨o.AllowInsecureTLS⟩ o.ClusterURL s = (.ok ids, s1) →
      client.initiateAuth0 env ⟨o.AllowInsecureTLS⟩ ids.1 ids.2 s1 = (.error err, s2) →
      Login env o s = (some err, s2) ∧ s2.stdout = s.stdout) ∧
    (∀ ids s1 csrf s2 err s3,
      client.initiateLogin env ⟨o.AllowInsecureTLS⟩ o.ClusterURL s = (.ok ids, s1) →
      client.initiateAuth0 env ⟨o.AllowInsecureTLS⟩ ids.1 ids.2 s1 = (.ok csrf, s2) →
      client.githubAuthenticate env ⟨o.AllowInsecureTLS⟩ csrf o.Username o.Password s2 =
        (.error err, s3) →
      Login env o s = (some err, s3) ∧ s3.stdout = s.stdout) ∧
    (∀ ids s1 csrf s2 token s3,
      client.initiateLogin env ⟨o.AllowInsecureTLS⟩ o.ClusterURL s = (.ok ids, s1) →
      client.initiateAuth0 env ⟨o.AllowInsecureTLS⟩ ids.1 ids.2 s1 = (.ok csrf, s2) →
      client.githubAuthenticate env ⟨o.AllowInsecureTLS⟩ csrf o.Username o.Password s2 =
        (.ok token, s3) →
      Login env o s = (none, { s3 with stdout := s3.stdout ++ [token] }) ∧
      (Login env o s).2.stdout = s.stdout ++ [token]) ∧
    ((Login env o s).1 = none ↔
      ∃ ids s1 csrf s2 token s3,
        client.initiateLogin env ⟨o.AllowInsecureTLS⟩ o.ClusterURL s = (.ok ids, s1) ∧
        client.initiateAuth0 env ⟨o.AllowInsecureTLS⟩ ids.1 ids.2 s1 = (.ok csrf, s2) ∧
        client.githubAuthenticate env ⟨o.AllowInsecureTLS⟩ csrf o.Username o.Password s2 =
          (.ok token, s3)) := by
  have e1 := initiateLogin_stdout env ⟨o.AllowInsecureTLS⟩ o.ClusterURL s
  refine ⟨?_, ?_, ?_, ?_, ?_⟩
  · intro err s1 h1
    rw [h1] at e1
    exact ⟨by simp only [Login, httpClient, h1], e1⟩
  · intro ids s1 err s2 h1 h2
    rw [h1] at e1
    have e2 := initiateAuth0_state env ⟨o.AllowInsecureTLS⟩ ids.1 ids.2 s1
    have e2' := Get_stdout env ⟨o.AllowInsecureTLS⟩ (str "https://dcos.auth0.com/authorize")
      (authorizeParams ids.1 ids.2) s1
    rw [← e2, h2] at e2'
    obtain ⟨a, b⟩ := ids
    simp only at h2
    exact ⟨by simp only [Login, httpClient, h1, h2], e2'.trans e1⟩
  · intro ids s1 csrf s2 err s3 h1 h2 h3
    rw [h1] at e1
    have e2 := initiateAuth0_state env ⟨o.AllowInsecureTLS⟩ ids.1 ids.2 s1
    have e2' := Get_stdout env ⟨o.AllowInsecureTLS⟩ (str "https://dcos.auth0.com/authorize")
      (authorizeParams ids.1 ids.2) s1
    rw [← e2, h2] at e2'
    have e3 := (githubAuthenticate_state env ⟨o.AllowInsecureTLS⟩ csrf o.Username o.Password s2).2
    rw [h3] at e3
    obtain ⟨a, b⟩ := ids
    simp only at h2
    exact ⟨by simp only [Login, httpClient, h1, h2, h3], e3.trans (e2'.trans e1)⟩
  · intro ids s1 csrf s2 token s3 h1 h2 h3
    rw [h1] at e1
    have e2 := initiateAuth0_state env ⟨o.AllowInsecureTLS⟩ ids.1 ids.2 s1
    have e2' := Get_stdout env ⟨o.AllowInsecureTLS⟩ (str "https://dcos.auth0.com/authorize")
      (authorizeParams ids.1 ids.2) s1
    rw [← e2, h2] at e2'
    have e3 := (githubAuthenticate_state env ⟨o.AllowInsecureTLS⟩ csrf o.Username o.Password s2).2
    rw [h3] at e3
    obtain ⟨a, b⟩ := ids
    simp only at h2
    have hL : Login env o s = (none, { s3 with stdout := s3.stdout ++ [token] }) := by
      simp only [Login, httpClient, h1, h2, h3]
    refine ⟨hL, ?_⟩
    rw [hL]
    simp only at e1 e2' e3
    simp only [e3, e2', e1]
  · constructor
    · intro hnone
      cases h1 : client.initiateLogin env ⟨o.AllowInsecureTLS⟩ o.ClusterURL s with
      | mk r1 s1 =>
        cases r1 with
        | error e => simp [Login, httpClient, h1] at hnone
        | ok ids =>
          obtain ⟨a, b⟩ := ids
          cases h2 : client.initiateAuth0 env ⟨o.AllowInsecureTLS⟩ a b s1 with
          | mk r2 s2 =>
            cases r2 with
            | error e => simp [Login, httpClient, h1, h2] at hnone
            | ok csrf =>
              cases h3 : client.githubAuthenticate env ⟨o.AllowInsecureTLS⟩ csrf o.Username
                  o.Password s2 with
              | mk r3 s3 =>
                cases r3 with
                | error e => simp [Login, httpClient, h1, h2, h3] at hnone
                | ok token => exact ⟨(a, b), s1, csrf, s2, token, s3, rfl, h2, h3⟩
    · rintro ⟨ids, s1, csrf, s2, token, s3, h1, h2, h3⟩
      obtain ⟨a, b⟩ := ids
      simp only at h2
      simp only [Login, httpClient, h1, h2, h3]

/-- Witness of C8: a failure in each of the three steps (a refused connection, a
missing CSRF input, an unexpected GitHub page) and a successful attempt, on the
fixtures. -/
theorem login_fail_fast_witness :
    (Login (scriptedEnv false []) sampleOptions State.init).1 =
      some (.transport "connection refused") ∧
    (Login (scriptedEnv false [loginRedirect, authorizePageNoInput]) sampleOptions State.init).1 =
      some (.new "Unable to extract CSRF token from response") ∧
    (Login (scriptedEnv false [loginRedirect, authorizePage, unexpectedPage]) sampleOptions
      State.init).1 = some (.new "Unexpected Github response") ∧
    (Login (scriptedEnv false [loginRedirect, authorizePage, directLinkPage, tokenPage])
      sampleOptions State.init).2.stdout = State.init.stdout ++ [str "TOKEN"] :=
  ⟨congrArg Prod.fst ((login_fail_fast (scriptedEnv false []) sampleOptions State.init).1
      (.transport "connection refused") _ rfl).1,
   congrArg Prod.fst ((login_fail_fast (scriptedEnv false [loginRedirect, authorizePageNoInput])
      sampleOptions State.init).2.1 (str "foo", str "bar") _
      (.new "Unable to extract CSRF token from response") _ rfl rfl).1,
   congrArg Prod.fst ((login_fail_fast
      (scriptedEnv false [loginRedirect, authorizePage, unexpectedPage])
      sampleOptions State.init).2.2.1 (str "foo", str "bar") _ (str "csrf1") _
      (.new "Unexpected Github response") _ rfl rfl rfl).1,
   ((login_fail_fast (scriptedEnv false [loginRedirect, authorizePage, directLinkPage, tokenPage])
      sampleOptions State.init).2.2.2.1 (str "foo", str "bar") _ (str "csrf1") _
      (str "TOKEN") _ rfl rfl rfl).2⟩

/-! ## The token matcher -/

/-- The search finds nothing, or a whole match and a capture. -/
theorem findFrom_spec (prog : List Inst) (whole : GoString) :
    ∀ (rest : List Nat) (pos : Nat),
      (findFrom prog whole pos rest = [] ∧
        ∀ i, i ≤ rest.length → runInsts prog (pos + i) ⟨0, 0⟩ (rest.drop i) = none) ∨
      (∃ i e caps, i ≤ rest.length ∧
        (∀ j, j < i → runInsts prog (pos + j) ⟨0, 0⟩ (rest.drop j) = none) ∧
        runInsts prog (pos + i) ⟨0, 0⟩ (rest.drop i) = some (e, caps) ∧
        findFrom prog whole pos rest =
          [slice whole (pos + i) e, slice whole caps.start caps.stop]) := by
  intro rest
  induction rest with
  | nil =>
    intro pos
    cases h : runInsts prog pos ⟨0, 0⟩ [] with
    | none =>
      left
      refine ⟨by simp [findFrom, h], ?_⟩
      intro i hi
      have : i = 0 := by simpa using hi
      subst this
      simpa using h
    | some r =>
      right
      exact ⟨0, r.1, r.2, by simp, by simp, by simpa using h, by simp [findFrom, h]⟩
  | cons x rest ih =>
    intro pos
    cases h : runInsts prog pos ⟨0, 0⟩ (x :: rest) with
    | some r =>
      right
      exact ⟨0, r.1, r.2, by simp, by simp, by simpa using h, by simp [findFrom, h]⟩
    | none =>
      have hf : findFrom prog whole pos (x :: rest) = findFrom prog whole (pos + 1) rest := by
        simp [findFrom, h]
      rcases ih (pos + 1) with ⟨hnil, hall⟩ | ⟨i, e, caps, hi, hbefore, hat, hres⟩
      · left
        refine ⟨by rw [hf, hnil], ?_⟩
        intro i hi
        cases i with
        | zero => simpa using h
        | succ i =>
          have := hall i (by simpa using hi)
          simpa [Nat.add_assoc, Nat.add_comm 1 i] using this
      · right
        refine ⟨i + 1, e, caps, by simpa using hi, ?_, ?_, ?_⟩
        · intro j hj
          cases j with
          | zero => simpa using h
          | succ j =>
            have := hbefore j (by omega)
            simpa [Nat.add_assoc, Nat.add_comm 1 j] using this
        · simpa [Nat.add_assoc, Nat.add_comm 1 i] using hat
        · rw [hf, hres]
          simp [Nat.add_assoc, Nat.add_comm 1 i]

/-- The result of `FindStringSubmatch` has two elements or none. -/
theorem FindStringSubmatch_length (prog : List Inst) (s : GoString) :
    FindStringSubmatch prog s = [] ∨ (FindStringSubmatch prog s).length = 2 := by
  rcases findFrom_spec prog s s 0 with ⟨h, _⟩ | ⟨i, e, caps, _, _, _, h⟩
  · exact Or.inl h
  · right
    unfold FindStringSubmatch
    rw [h]
    rfl

/-- Greedy repetition: when the run of characters other than `c` ends at a `c` and the
rest of the pattern matches from there, that is the match found. -/
theorem starNot_run {R : Type} (c : Nat) (k : Nat → List Nat → Option R) (s : List Nat) (r : R) :
    ∀ (run : List Nat) (pos : Nat), (∀ y ∈ run, y ≠ c) →
      k (pos + run.length) (c :: s) = some r →
      starNot c k pos (run ++ c :: s) = some r := by
  intro run
  induction run with
  | nil =>
    intro pos _ hk
    simpa [starNot] using hk
  | cons y run ih =>
    intro pos hrun hk
    have hy : y ≠ c := hrun y (List.mem_cons_self _ _)
    have hrest := ih (pos + 1) (fun z hz => hrun z (List.mem_cons_of_mem _ hz))
      (by simpa [Nat.add_assoc, Nat.add_comm 1 run.length] using hk)
    simp [starNot, hy, hrest]

theorem str_var_value :
    str "var value " = [118, 97, 114, 32, 118, 97, 108, 117, 101, 32] := by decide

/-- The pattern on a text of the shape `var value <f1>"<payload>"<f2>;<rest>`. -/
theorem tokenMatcher_match (f1 payload f2 rest : List Nat)
    (hf1 : f1 ≠ []) (hq1 : ∀ y ∈ f1, y ≠ 34)
    (hp : payload ≠ []) (hqp : ∀ y ∈ payload, y ≠ 34)
    (hf2 : f2 ≠ []) (hs2 : ∀ y ∈ f2, y ≠ 59) :
    runInsts tokenMatcher 0 ⟨0, 0⟩
        (str "var value " ++ f1 ++ 34 :: (payload ++ 34 :: (f2 ++ 59 :: rest))) =
      some (10 + f1.length + 1 + payload.length + 1 + f2.length + 1,
        ⟨10 + f1.length + 1, 10 + f1.length + 1 + payload.length⟩) := by
  obtain ⟨x1, f1', rfl⟩ := List.exists_cons_of_ne_nil hf1
  obtain ⟨x2, p', rfl⟩ := List.exists_cons_of_ne_nil hp
  obtain ⟨x3, f2', rfl⟩ := List.exists_cons_of_ne_nil hf2
  have hx1 : x1 ≠ 34 := hq1 x1 (List.mem_cons_self _ _)
  have hx2 : x2 ≠ 34 := hqp x2 (List.mem_cons_self _ _)
  have hx3 : x3 ≠ 59 := hs2 x3 (List.mem_cons_self _ _)
  have h3 : ∀ pos caps, runInsts [.plusNot 59, .char 59] pos caps (x3 :: f2' ++ 59 :: rest) =
      some (pos + 1 + f2'.length + 1, caps) := by
    intro pos caps
    simp only [runInsts, List.cons_append, hx3, ne_eq, not_false_eq_true, if_true]
    apply starNot_run 59 _ rest _ f2' (pos + 1)
      (fun z hz => hs2 z (List.mem_cons_of_mem _ hz))
    simp [runInsts]
  have h2 : ∀ pos caps, runInsts [.plusNot 34, .capClose, .char 34, .plusNot 59, .char 59] pos caps
      (x2 :: p' ++ 34 :: (x3 :: f2' ++ 59 :: rest)) =
      some (pos + 1 + p'.length + 1 + 1 + f2'.length + 1,
        { caps with stop := pos + 1 + p'.length }) := by
    intro pos caps
    simp only [runInsts, List.cons_append, hx2, ne_eq, not_false_eq_true, if_true]
    apply starNot_run 34 _ _ _ p' (pos + 1)
      (fun z hz => hqp z (List.mem_cons_of_mem _ hz))
    have := h3 (pos + 1 + p'.length + 1) { caps with stop := pos + 1 + p'.length }
    simp only [runInsts, List.cons_append, if_true] at this ⊢
    exact this
  rw [str_var_value]
  simp only [tokenMatcher, str_var_value, List.map_cons, List.map_nil, List.cons_append,
    List.nil_append, runInsts, if_true, hx1, ne_eq, not_false_eq_true]
  apply starNot_run 34 _ _ _ f1' _ (fun z hz => hq1 z (List.mem_cons_of_mem _ hz))
  have := h2 (0 + 1 + 1 + 1 + 1 + 1 + 1 + 1 + 1 + 1 + 1 + 1 + f1'.length + 1)
    { start := 0 + 1 + 1 + 1 + 1 + 1 + 1 + 1 + 1 + 1 + 1 + 1 + f1'.length + 1, stop := 0 }
  simp only [runInsts, List.cons_append, if_true] at this ⊢
  rw [this]
  simp only [List.length_cons, Option.some.injEq, Prod.mk.injEq, Caps.mk.injEq]
  omega

theorem slice_middle (a b c : List Nat) :
    slice (a ++ (b ++ c)) a.length (a.length + b.length) = b := by
  simp [slice]

/-- The capture of the pattern on a text of the shape `var value <f1>"<payload>"<f2>;<rest>`
is the payload. -/
theorem FindStringSubmatch_token (f1 payload f2 rest : List Nat)
    (hf1 : f1 ≠ []) (hq1 : ∀ y ∈ f1, y ≠ 34)
    (hp : payload ≠ []) (hqp : ∀ y ∈ payload, y ≠ 34)
    (hf2 : f2 ≠ []) (hs2 : ∀ y ∈ f2, y ≠ 59) :
    FindStringSubmatch tokenMatcher
        (str "var value " ++ f1 ++ 34 :: (payload ++ 34 :: (f2 ++ 59 :: rest))) =
      [str "var value " ++ f1 ++ 34 :: (payload ++ 34 :: (f2 ++ [59])), payload] := by
  have hm := tokenMatcher_match f1 payload f2 rest hf1 hq1 hp hqp hf2 hs2
  have hfind : ∀ s : List Nat, ∀ e caps, runInsts tokenMatcher 0 ⟨0, 0⟩ s = some (e, caps) →
      findFrom tokenMatcher s 0 s = [slice s 0 e, slice s caps.start caps.stop] := by
    intro s e caps h
    cases s with
    | nil => simp [findFrom, h]
    | cons x s => simp [findFrom, h]
  unfold FindStringSubmatch
  rw [hfind _ _ _ hm]
  have hlen : (str "var value ").length = 10 := by decide
  congr 1
  · have h := slice_middle [] (str "var value " ++ f1 ++ 34 :: (payload ++ 34 :: (f2 ++ [59]))) rest
    simp only [List.nil_append, List.length_nil, Nat.zero_add] at h
    have e1 : (str "var value " ++ f1 ++ 34 :: (payload ++ 34 :: (f2 ++ [59]))) ++ rest =
        str "var value " ++ f1 ++ 34 :: (payload ++ 34 :: (f2 ++ 59 :: rest)) := by simp
    rw [e1] at h
    have e2 : (str "var value " ++ f1 ++ 34 :: (payload ++ 34 :: (f2 ++ [59]))).length =
        10 + f1.length + 1 + payload.length + 1 + f2.length + 1 := by
      simp [hlen]; omega
    rw [e2] at h
    exact h
  · congr 1
    have h := slice_middle (str "var value " ++ f1 ++ [34]) payload (34 :: (f2 ++ 59 :: rest))
    have e1 : (str "var value " ++ f1 ++ [34]) ++ (payload ++ 34 :: (f2 ++ 59 :: rest)) =
        str "var value " ++ f1 ++ 34 :: (payload ++ 34 :: (f2 ++ 59 :: rest)) := by simp
    rw [e1] at h
    have e2 : (str "var value " ++ f1 ++ [34]).length = 10 + f1.length + 1 := by
      simp [hlen]; omega
    rw [e2] at h
    exact h

/-- The text `getLoginToken` scans is the text of the last matching script. -/
theorem script_text_last (doc : List Node) (earlier : List Located) (last : Located)
    (h : Document.Find doc scriptSelector = earlier ++ [last]) :
    Selection.Text (Selection.Last (Document.Find doc scriptSelector)) = Node.Text last.node := by
  rw [h]
  simp [Selection.Last, Selection.Text]

/-- Claim C9 (last-script rule).  `getLoginToken` scans the text of the last
`script[type="text/javascript"]` element only: when that text has no match of the
pattern (at no start offset), the result is the error "Couldn't extract ACS token from
response", whatever the earlier scripts hold; when it has one, the payload handed to the
decoder is the capture group of the match at the leftmost offset where the pattern
matches.  With no such script at all the result is the same error. -/
theorem last_script_rule (res : Response) (doc : List Node) (hdoc : res.document = .ok doc) :
    (∀ earlier last, Document.Find doc scriptSelector = earlier ++ [last] →
      ((∀ i, i ≤ (Node.Text last.node).length →
          runInsts tokenMatcher i ⟨0, 0⟩ ((Node.Text last.node).drop i) = none) →
        getLoginToken res = .error (.new "Couldn't extract ACS token from response")) ∧
      (∀ i e caps, i ≤ (Node.Text last.node).length →
        (∀ j, j < i → runInsts tokenMatcher j ⟨0, 0⟩ ((Node.Text last.node).drop j) = none) →
        runInsts tokenMatcher i ⟨0, 0⟩ ((Node.Text last.node).drop i) = some (e, caps) →
        FindStringSubmatch tokenMatcher (Node.Text last.node) =
          [slice (Node.Text last.node) i e, slice (Node.Text last.node) caps.start caps.stop] ∧
        getLoginToken res = decodeToken (slice (Node.Text last.node) caps.start caps.stop))) ∧
    (Document.Find doc scriptSelector = [] →
      getLoginToken res = .error (.new "Couldn't extract ACS token from response")) := by
  constructor
  · intro earlier last hlast
    have htext := script_text_last doc earlier last hlast
    constructor
    · intro hnone
      have hfind : FindStringSubmatch tokenMatcher (Node.Text last.node) = [] := by
        rcases findFrom_spec tokenMatcher (Node.Text last.node) (Node.Text last.node) 0 with
          ⟨h, _⟩ | ⟨i, e, caps, hi, _, hat, _⟩
        · exact h
        · rw [Nat.zero_add, hnone i hi] at hat
          cases hat
      simp only [getLoginToken, hdoc, htext, hfind]
      rfl
    · intro i e caps hi hbefore hat
      have hfind : FindStringSubmatch tokenMatcher (Node.Text last.node) =
          [slice (Node.Text last.node) i e,
           slice (Node.Text last.node) caps.start caps.stop] := by
        rcases findFrom_spec tokenMatcher (Node.Text last.node) (Node.Text last.node) 0 with
          ⟨_, hall⟩ | ⟨i', e', caps', hi', hbefore', hat', hres⟩
        · have hn := hall i hi
          rw [Nat.zero_add] at hn
          rw [hn] at hat
          cases hat
        · simp only [Nat.zero_add] at hbefore' hat' hres
          have hii : i' = i := by
            rcases Nat.lt_trichotomy i' i with hlt | heq | hgt
            · rw [hbefore i' hlt] at hat'
              cases hat'
            · exact heq
            · rw [hbefore' i hgt] at hat
              cases hat
          subst hii
          rw [hat] at hat'
          cases hat'
          exact hres
      refine ⟨hfind, ?_⟩
      simp only [getLoginToken, hdoc, htext, hfind]
      rfl
  · intro hnil
    simp only [getLoginToken, hdoc, hnil]
    rfl

/-- Witness of C9: the first script of the page holds a token assignment, the last
one does not, and the token is not extracted; on the token page of the fixtures the
capture of the last script is decoded. -/
theorem last_script_rule_witness :
    getLoginToken (page 200 []
        [typedScript (str "var value = f(\"eyJpZF90b2tlbiI6IlRPS0VOIn0=\") ;"),
         typedScript (str "var x = 1;")]) =
      .error (.new "Couldn't extract ACS token from response") ∧
    getLoginToken tokenPage = decodeToken (str "eyJpZF90b2tlbiI6IlRPS0VOIn0=") :=
  ⟨((last_script_rule (page 200 []
        [typedScript (str "var value = f(\"eyJpZF90b2tlbiI6IlRPS0VOIn0=\") ;"),
         typedScript (str "var x = 1;")]) _ rfl).1
      [⟨typedScript (str "var value = f(\"eyJpZF90b2tlbiI6IlRPS0VOIn0=\") ;"), []⟩]
      ⟨typedScript (str "var x = 1;"), []⟩ rfl).1 (by decide),
   (((last_script_rule tokenPage _ rfl).1
      [⟨typedScript (str "var x = 1;"),
        [⟨str "head", []⟩, ⟨str "html", []⟩]⟩]
      ⟨typedScript (str "var value = JSON.parse(atob(\"eyJpZF90b2tlbiI6IlRPS0VOIn0=\")); done();"),
        [⟨str "body", []⟩, ⟨str "html", []⟩]⟩ rfl).2 0 61
      ⟨29, 57⟩ (by decide) (by decide) (by decide)).2⟩

/-! ## base64 -/

theorem decodeMap_encodeChar : ∀ i, i < 64 → decodeMap (encodeChar i) = i := by decide

theorem decodeMap_pad : decodeMap 61 = 0xff := by decide

theorem encodeChar_ne_quote (i : Nat) : encodeChar i ≠ 34 := by
  by_cases h : i < 64
  · revert i
    decide
  · have hlen : (encodeStd.toList.map Char.toNat).length = 64 := by decide
    have : (encodeStd.toList.map Char.toNat).get? i = none := by
      rw [List.get?_eq_none]
      omega
    rw [encodeChar, this]
    decide

theorem EncodeToString_ne_quote : ∀ (bs : List Nat), ∀ y ∈ EncodeToString bs, y ≠ 34
  | [] => by simp [EncodeToString]
  | [a] => by
    intro y hy
    simp only [EncodeToString, List.mem_cons, List.mem_singleton, List.not_mem_nil, or_false] at hy
    rcases hy with h | h | h | h <;> subst h <;> first | exact encodeChar_ne_quote _ | decide
  | [a, b] => by
    intro y hy
    simp only [EncodeToString, List.mem_cons, List.mem_singleton, List.not_mem_nil, or_false] at hy
    rcases hy with h | h | h | h <;> subst h <;> first | exact encodeChar_ne_quote _ | decide
  | a :: b :: c :: rest => by
    intro y hy
    simp only [EncodeToString, List.mem_cons] at hy
    rcases hy with h | h | h | h | h
    · subst h; exact encodeChar_ne_quote _
    · subst h; exact encodeChar_ne_quote _
    · subst h; exact encodeChar_ne_quote _
    · subst h; exact encodeChar_ne_quote _
    · exact EncodeToString_ne_quote rest y h

theorem EncodeToString_ne_nil (bs : List Nat) (h : bs ≠ []) : EncodeToString bs ≠ [] := by
  match bs, h with
  | [a], _ => simp [EncodeToString]
  | [a, b], _ => simp [EncodeToString]
  | a :: b :: c :: rest, _ => simp [EncodeToString]

theorem quantumBytes_full (a b c : Nat) (ha : a < 256) (hb : b < 256) (hc : c < 256) :
    quantumBytes 4 [a / 4, a % 4 * 16 + b / 16, b % 16 * 4 + c / 64, c % 64] = [a, b, c] := by
  simp only [quantumBytes, List.getD_cons_zero, List.getD_cons_succ, List.take]
  refine List.cons_eq_cons.2 ⟨by omega, List.cons_eq_cons.2 ⟨by omega, List.cons_eq_cons.2 ⟨by omega, rfl⟩⟩⟩

theorem quantumBytes_two (a b : Nat) (ha : a < 256) (hb : b < 256) :
    quantumBytes 3 [a / 4, a % 4 * 16 + b / 16, b % 16 * 4] = [a, b] := by
  simp only [quantumBytes, List.getD_cons_zero, List.getD_cons_succ, List.take, List.getD_nil]
  refine List.cons_eq_cons.2 ⟨by omega, List.cons_eq_cons.2 ⟨by omega, rfl⟩⟩

theorem quantumBytes_one (a : Nat) (ha : a < 256) :
    quantumBytes 2 [a / 4, a % 4 * 16] = [a] := by
  simp only [quantumBytes, List.getD_cons_zero, List.getD_cons_succ, List.take, List.getD_nil]
  refine List.cons_eq_cons.2 ⟨by omega, rfl⟩

theorem decodeLoop_sextet (j : Nat) (dbuf out rest : List Nat) (i : Nat) (hi : i < 64) :
    decodeLoop j dbuf out (encodeChar i :: rest) =
      if j = 3 then decodeLoop 0 [] (out ++ quantumBytes 4 (dbuf ++ [i])) rest
      else decodeLoop (j + 1) (dbuf ++ [i]) out rest := by
  have h := decodeMap_encodeChar i hi
  have hne : decodeMap (encodeChar i) ≠ 0xff := by rw [h]; omega
  rw [decodeLoop, if_pos hne, h]

/-- Decoding inverts encoding: the loop of `Decode` on an encoded input appends the
encoded bytes. -/
theorem decodeLoop_EncodeToString : ∀ (bs out : List Nat), (∀ b ∈ bs, b < 256) →
    decodeLoop 0 [] out (EncodeToString bs) = .ok (out ++ bs)
  | [], out, _ => by simp [EncodeToString, decodeLoop]
  | [a], out, h => by
    have ha : a < 256 := h a (by simp)
    rw [EncodeToString, decodeLoop_sextet _ _ _ _ _ (by omega), if_neg (by decide),
      decodeLoop_sextet _ _ _ _ _ (by omega), if_neg (by decide), decodeLoop]
    simp only [decodeMap_pad, ne_eq, not_true_eq_false, if_false]
    simp [decodePadding, skipNewlines, quantumBytes_one a ha]
  | [a, b], out, h => by
    have ha : a < 256 := h a (by simp)
    have hb : b < 256 := h b (by simp)
    rw [EncodeToString, decodeLoop_sextet _ _ _ _ _ (by omega), if_neg (by decide),
      decodeLoop_sextet _ _ _ _ _ (by omega), if_neg (by decide),
      decodeLoop_sextet _ _ _ _ _ (by omega), if_neg (by decide), decodeLoop]
    simp only [decodeMap_pad, ne_eq, not_true_eq_false, if_false]
    simp [decodePadding, skipNewlines, quantumBytes_two a b ha hb]
  | a :: b :: c :: rest, out, h => by
    have ha : a < 256 := h a (by simp)
    have hb : b < 256 := h b (by simp)
    have hc : c < 256 := h c (by simp)
    have hrest : ∀ x ∈ rest, x < 256 := fun x hx => h x (by simp [hx])
    rw [EncodeToString, decodeLoop_sextet _ _ _ _ _ (by omega), if_neg (by decide),
      decodeLoop_sextet _ _ _ _ _ (by omega), if_neg (by decide),
      decodeLoop_sextet _ _ _ _ _ (by omega), if_neg (by decide),
      decodeLoop_sextet _ _ _ _ _ (by omega), if_pos (by decide)]
    simp only [List.nil_append, List.cons_append, quantumBytes_full a b c ha hb hc]
    rw [decodeLoop_EncodeToString rest _ hrest]
    simp

/-- Round trip of `base64.StdEncoding`. -/
theorem DecodeString_EncodeToString (bs : List Nat) (h : ∀ b ∈ bs, b < 256) :
    DecodeString (EncodeToString bs) = .ok bs := by
  rw [DecodeString, decodeLoop_EncodeToString bs [] h]
  simp

/-! ## UTF-8 -/

theorem DecodeRune_encodeRune (r : Nat) (rest : List Nat) (hr : isScalar r) :
    DecodeRune (encodeRune r ++ rest) = (r, (encodeRune r).length) := by
  unfold isScalar at hr
  unfold encodeRune
  by_cases h1 : r < 0x80
  · simp [h1, DecodeRune]
  · rw [if_neg h1]
    by_cases h2 : r < 0x800
    · rw [if_pos h2]
      have c1 : ¬ (0xC0 + r / 64 < 0x80) := by omega
      have c2 : 0xC2 ≤ 0xC0 + r / 64 ∧ 0xC0 + r / 64 ≤ 0xDF := by omega
      have c3 : isCont (0x80 + r % 64) = true := by simp [isCont]; omega
      simp only [List.cons_append, List.nil_append, DecodeRune, if_neg c1, if_pos c2, c3, if_true,
        List.length_cons, List.length_nil]
      congr 1
      omega
    · rw [if_neg h2]
      have h3 : ¬ (0x10FFFF < r ∨ (0xD800 ≤ r ∧ r ≤ 0xDFFF)) := by omega
      rw [if_neg h3]
      by_cases h4 : r < 0x10000
      · rw [if_pos h4]
        have c1 : ¬ (0xE0 + r / 4096 < 0x80) := by omega
        have c2 : ¬ (0xC2 ≤ 0xE0 + r / 4096 ∧ 0xE0 + r / 4096 ≤ 0xDF) := by omega
        have c3 : 0xE0 ≤ 0xE0 + r / 4096 ∧ 0xE0 + r / 4096 ≤ 0xEF := by omega
        have c4 : ¬ (0x80 + r / 64 % 64 < (if 0xE0 + r / 4096 = 0xE0 then 0xA0 else 0x80) ∨
            (if 0xE0 + r / 4096 = 0xED then 0x9F else 0xBF) < 0x80 + r / 64 % 64) := by
          split <;> split <;> omega
        have c5 : isCont (0x80 + r % 64) = true := by simp [isCont]; omega
        simp only [List.cons_append, List.nil_append, DecodeRune, if_neg c1, if_neg c2, if_pos c3,
          if_neg c4, c5, Bool.not_true, Bool.false_eq_true, if_false, List.length_cons,
          List.length_nil]
        congr 1
        omega
      · rw [if_neg h4]
        have c1 : ¬ (0xF0 + r / 262144 < 0x80) := by omega
        have c2 : ¬ (0xC2 ≤ 0xF0 + r / 262144 ∧ 0xF0 + r / 262144 ≤ 0xDF) := by omega
        have c3 : ¬ (0xE0 ≤ 0xF0 + r / 262144 ∧ 0xF0 + r / 262144 ≤ 0xEF) := by omega
        have c3' : 0xF0 ≤ 0xF0 + r / 262144 ∧ 0xF0 + r / 262144 ≤ 0xF4 := by omega
        have c4 : ¬ (0x80 + r / 4096 % 64 < (if 0xF0 + r / 262144 = 0xF0 then 0x90 else 0x80) ∨
            (if 0xF0 + r / 262144 = 0xF4 then 0x8F else 0xBF) < 0x80 + r / 4096 % 64) := by
          split <;> split <;> omega
        have c5 : isCont (0x80 + r / 64 % 64) = true := by simp [isCont]; omega
        have c6 : isCont (0x80 + r % 64) = true := by simp [isCont]; omega
        simp only [List.cons_append, List.nil_append, DecodeRune, if_neg c1, if_neg c2, if_neg c3,
          if_pos c3', if_neg c4, c5, c6, Bool.not_true, Bool.false_eq_true, if_false,
          List.length_cons, List.length_nil]
        congr 1
        omega

theorem encodeRune_length_pos (r : Nat) : 0 < (encodeRune r).length := by
  unfold encodeRune
  split_ifs <;> simp

theorem encodeRune_lt (r : Nat) : ∀ b ∈ encodeRune r, b < 256 := by
  intro b hb
  unfold encodeRune at hb
  split_ifs at hb <;>
    simp only [List.mem_cons, List.mem_singleton, List.not_mem_nil, or_false] at hb <;>
    omega

theorem encodeRune_plain (r : Nat) (hp : plainRune r) : ∀ b ∈ encodeRune r, plainRune b := by
  intro b hb
  unfold plainRune at hp ⊢
  unfold encodeRune at hb
  split_ifs at hb <;>
    simp only [List.mem_cons, List.mem_singleton, List.not_mem_nil, or_false] at hb <;>
    omega

theorem str_lt (s : String) : ∀ b ∈ str s, b < 256 := by
  intro b hb
  simp only [str, List.mem_flatMap] at hb
  obtain ⟨c, _, hc⟩ := hb
  exact encodeRune_lt _ b hc

theorem str_plain (s : String) (h : ∀ c ∈ s.toList, plainRune c.toNat) :
    ∀ b ∈ str s, plainRune b := by
  intro b hb
  simp only [str, List.mem_flatMap] at hb
  obtain ⟨c, hc, hb⟩ := hb
  exact encodeRune_plain _ (h c hc) b hb

theorem char_isScalar (c : Char) : isScalar c.toNat := by
  have h := c.valid
  unfold isScalar
  exact h

/-! ## JSON strings -/

theorem scanString_plain (rest : List Nat) :
    ∀ t : List Nat, (∀ b ∈ t, plainRune b) → scanString (t ++ 34 :: rest) = some (t, rest) := by
  intro t
  unfold scanString
  induction t with
  | nil => intro _; simp [scanStringFrom]
  | cons b t ih =>
    intro h
    have hb : plainRune b := h b (List.mem_cons_self _ _)
    unfold plainRune at hb
    have ht := ih (fun x hx => h x (List.mem_cons_of_mem _ hx))
    rw [List.cons_append, scanStringFrom, if_neg (by omega), if_neg (by omega),
      if_neg (by omega), ht]
    rfl

theorem unquoteClean_chars : ∀ (cs : List Char), (∀ c ∈ cs, plainRune c.toNat) →
    ∀ fuel, (cs.flatMap (fun c => encodeRune c.toNat)).length ≤ fuel →
      unquoteClean fuel (cs.flatMap (fun c => encodeRune c.toNat)) = true := by
  intro cs
  induction cs with
  | nil => intro _ fuel _; simp [unquoteClean]
  | cons c cs ih =>
    intro h fuel hfuel
    have hc : plainRune c.toNat := h c (List.mem_cons_self _ _)
    have hcs := ih (fun x hx => h x (List.mem_cons_of_mem _ hx))
    rw [List.flatMap_cons] at hfuel ⊢
    rw [List.length_append] at hfuel
    have hpos := encodeRune_length_pos c.toNat
    have hdec := DecodeRune_encodeRune c.toNat (cs.flatMap (fun c => encodeRune c.toNat))
      (char_isScalar c)
    obtain ⟨fuel', rfl⟩ : ∃ f, fuel = f + 1 := ⟨fuel - 1, by omega⟩
    cases henc : encodeRune c.toNat with
    | nil => rw [henc] at hpos; simp at hpos
    | cons b0 bs =>
      rw [henc] at hdec hfuel
      have hb0 : plainRune b0 := encodeRune_plain _ hc b0 (by rw [henc]; simp)
      unfold plainRune at hb0
      rw [List.cons_append, unquoteClean, if_neg (by omega)]
      by_cases h128 : b0 < 128
      · rw [if_pos h128]
        have hbs : bs = [] := by
          unfold encodeRune at henc
          split_ifs at henc <;> simp only [List.cons.injEq] at henc <;>
            first
              | exact henc.2.symm
              | (exfalso; omega)
        subst hbs
        exact hcs fuel' (by simp at hfuel ⊢; omega)
      · rw [if_neg h128]
        rw [List.cons_append] at hdec
        simp only [hdec]
        have hlen2 : 2 ≤ (b0 :: bs).length := by
          unfold encodeRune at henc
          split_ifs at henc
          · simp only [List.cons.injEq] at henc; omega
          all_goals (rw [← henc]; simp)
        rw [if_neg (by omega)]
        have hdrop : List.drop (b0 :: bs).length (b0 :: (bs ++ cs.flatMap (fun c => encodeRune c.toNat))) =
            cs.flatMap (fun c => encodeRune c.toNat) := by
          rw [← List.cons_append, List.drop_left]
        rw [hdrop]
        exact hcs fuel' (by simp at hfuel ⊢; omega)

theorem unquote_str (s : String) (h : ∀ c ∈ s.toList, plainRune c.toNat) :
    unquote (str s) = some (str s) := by
  unfold unquote
  rw [if_pos]
  exact unquoteClean_chars s.toList h _ (le_refl _)

/-! ## The fuel of the JSON parser -/

theorem skipSpace_length (s : List Nat) : (skipSpace s).length ≤ s.length := by
  induction s with
  | nil => simp [skipSpace]
  | cons c rest ih =>
    rw [skipSpace]
    split
    · simp only [List.length_cons]; omega
    · simp

theorem scanStringFrom_length : ∀ (s : List Nat) (st : StringState) (raw r : List Nat),
    scanStringFrom st s = some (raw, r) → r.length < s.length := by
  intro s
  induction s with
  | nil => intro st raw r h; simp [scanStringFrom] at h
  | cons c rest ih =>
    intro st raw r h
    have step : ∀ st' (raw' : List Nat),
        (scanStringFrom st' rest).map (fun p => (c :: p.1, p.2)) = some (raw', r) →
        r.length < (c :: rest).length := by
      intro st' raw' h'
      cases hr : scanStringFrom st' rest with
      | none => rw [hr] at h'; simp at h'
      | some p =>
        rw [hr] at h'
        simp only [Option.map_some', Option.some.injEq, Prod.mk.injEq] at h'
        have := ih st' p.1 p.2 (by rw [hr])
        rw [h'.2] at this
        simp only [List.length_cons]
        omega
    cases st with
    | inString =>
      rw [scanStringFrom] at h
      split at h
      · simp only [Option.some.injEq, Prod.mk.injEq] at h
        rw [← h.2]
        simp
      · split at h
        · exact step _ _ h
        · split at h
          · simp at h
          · exact step _ _ h
    | inStringEsc =>
      rw [scanStringFrom] at h
      split at h
      · exact step _ _ h
      · split at h
        · exact step _ _ h
        · simp at h
    | inStringEscU n =>
      rw [scanStringFrom] at h
      split at h
      · exact step _ _ h
      · simp at h

theorem scanString_length (s raw r : List Nat) (h : scanString s = some (raw, r)) :
    r.length < s.length :=
  scanStringFrom_length s _ raw r h

theorem scanLiteral_length : ∀ (lit s r : List Nat), scanLiteral lit s = some r →
    r.length ≤ s.length := by
  intro lit
  induction lit with
  | nil => intro s r h; simp [scanLiteral] at h; rw [h]
  | cons l lit ih =>
    intro s r h
    cases s with
    | nil => simp [scanLiteral] at h
    | cons c s =>
      rw [scanLiteral] at h
      split at h
      · have := ih s r h
        simp only [List.length_cons]
        omega
      · simp at h

theorem dropWhile_length (p : Nat → Bool) (s : List Nat) : (s.dropWhile p).length ≤ s.length := by
  induction s with
  | nil => simp
  | cons c rest ih =>
    rw [List.dropWhile_cons]
    split
    · simp only [List.length_cons]; omega
    · simp

theorem scanExp_length (s t r : List Nat) (h : scanExp s = some (t, r)) :
    r.length ≤ s.length := by
  cases s with
  | nil => simp [scanExp] at h; rw [← h.2]
  | cons e rest =>
    simp only [scanExp] at h
    split at h
    · split at h
      · simp at h
      · simp only [Option.some.injEq, Prod.mk.injEq] at h
        rw [← h.2]
        refine le_trans (dropWhile_length _ _) ?_
        simp only [List.length_cons]
        split
        · split
          · simp only [List.length_cons]; omega
          · simp only [List.length_cons]; omega
        · simp
    · simp only [Option.some.injEq, Prod.mk.injEq] at h
      rw [← h.2]

theorem scanFrac_length (s t r : List Nat) (h : scanFrac s = some (t, r)) :
    r.length ≤ s.length := by
  unfold scanFrac at h
  split at h
  · next r0 =>
    simp only at h
    split at h
    · simp at h
    · split at h
      · next ex r1 he =>
        simp only [Option.some.injEq, Prod.mk.injEq] at h
        have h1 := scanExp_length _ _ _ he
        have h2 := dropWhile_length isDigit r0
        rw [← h.2]
        simp only [List.length_cons]
        omega
      · simp at h
  · exact scanExp_length _ _ _ h

theorem scanInt_length (s t r : List Nat) (h : scanInt s = some (t, r)) :
    r.length < s.length := by
  cases s with
  | nil => simp [scanInt] at h
  | cons d rest =>
    rw [scanInt] at h
    split at h
    · split at h
      · next t1 r1 hf =>
        simp only [Option.some.injEq, Prod.mk.injEq] at h
        have := scanFrac_length _ _ _ hf
        rw [← h.2]
        simp only [List.length_cons]
        omega
      · simp at h
    · split at h
      · split at h
        · next t1 r1 hf =>
          simp only [Option.some.injEq, Prod.mk.injEq] at h
          have := scanFrac_length _ _ _ hf
          have := dropWhile_length isDigit rest
          rw [← h.2]
          simp only [List.length_cons]
          omega
        · simp at h
      · simp at h

theorem scanNumber_length (s t r : List Nat) (h : scanNumber s = some (t, r)) :
    r.length < s.length := by
  unfold scanNumber at h
  split at h
  · next r0 =>
    split at h
    · next t1 r1 hi =>
      simp only [Option.some.injEq, Prod.mk.injEq] at h
      have := scanInt_length _ _ _ hi
      rw [← h.2]
      simp only [List.length_cons]
      omega
    · simp at h
  · exact scanInt_length _ _ _ h

theorem parseElements_fuel (fuel : Nat) (hV : FuelEnough parseValue fuel)
    (hE : FuelEnough parseElements fuel) : FuelEnough parseElements (fuel + 1) := by
  intro d s es r h
  rw [parseElements] at h
  split at h
  · simp at h
  · next v r0 hv =>
    obtain ⟨hlen0, hg0⟩ := hV d s v r0 hv
    have hsp := skipSpace_length r0
    split at h
    · next r1 hs1 =>
      simp only [Option.some.injEq, Prod.mk.injEq] at h
      obtain ⟨hes, hr⟩ := h
      subst hes hr
      rw [hs1] at hsp
      simp only [List.length_cons] at hsp
      refine ⟨by omega, fun g hg => ?_⟩
      obtain ⟨g', rfl⟩ : ∃ g', g = g' + 1 := ⟨g - 1, by omega⟩
      rw [parseElements, hg0 g' (by omega)]
      simp only [hs1]
    · next r1 hs1 =>
      split at h
      · next es1 r2 he =>
        simp only [Option.some.injEq, Prod.mk.injEq] at h
        obtain ⟨hes, hr⟩ := h
        subst hes hr
        obtain ⟨hlen1, hg1⟩ := hE d r1 es1 r2 he
        rw [hs1] at hsp
        simp only [List.length_cons] at hsp
        refine ⟨by omega, fun g hg => ?_⟩
        obtain ⟨g', rfl⟩ : ∃ g', g = g' + 1 := ⟨g - 1, by omega⟩
        rw [parseElements, hg0 g' (by omega)]
        simp only [hs1, hg1 g' (by omega)]
      · simp at h
    · simp at h

theorem parseMembers_fuel (fuel : Nat) (hV : FuelEnough parseValue fuel)
    (hM : FuelEnough parseMembers fuel) : FuelEnough parseMembers (fuel + 1) := by
  intro d s ms r h
  rw [parseMembers] at h
  split at h
  · simp at h
  · next rawKey r0 hk =>
    have hlenk := scanString_length _ _ _ hk
    split at h
    · simp at h
    · next key hu =>
      have hsp0 := skipSpace_length r0
      split at h
      · next r1 hs1 =>
        rw [hs1] at hsp0
        simp only [List.length_cons] at hsp0
        split at h
        · simp at h
        · next v r2 hv =>
          obtain ⟨hlen2, hg2⟩ := hV d r1 v r2 hv
          have hsp2 := skipSpace_length r2
          split at h
          · next r3 hs3 =>
            simp only [Option.some.injEq, Prod.mk.injEq] at h
            obtain ⟨hms, hr⟩ := h
            subst hms hr
            rw [hs3] at hsp2
            simp only [List.length_cons] at hsp2
            refine ⟨by omega, fun g hg => ?_⟩
            obtain ⟨g', rfl⟩ : ∃ g', g = g' + 1 := ⟨g - 1, by omega⟩
            rw [parseMembers]
            simp only [hk, hu, hs1, hg2 g' (by omega), hs3]
          · next r3 hs3 =>
            rw [hs3] at hsp2
            simp only [List.length_cons] at hsp2
            have hsp3 := skipSpace_length r3
            split at h
            · next r4 hs4 =>
              rw [hs4] at hsp3
              simp only [List.length_cons] at hsp3
              split at h
              · next ms1 r5 hm =>
                simp only [Option.some.injEq, Prod.mk.injEq] at h
                obtain ⟨hms, hr⟩ := h
                subst hms hr
                obtain ⟨hlen5, hg5⟩ := hM d r4 ms1 r5 hm
                refine ⟨by omega, fun g hg => ?_⟩
                obtain ⟨g', rfl⟩ : ∃ g', g = g' + 1 := ⟨g - 1, by omega⟩
                rw [parseMembers]
                simp only [hk, hu, hs1, hg2 g' (by omega), hs3, hs4, hg5 g' (by omega)]
              · simp at h
            · simp at h
          · simp at h
      · simp at h

theorem parseValue_fuel (fuel : Nat) (hM : FuelEnough parseMembers fuel)
    (hE : FuelEnough parseElements fuel) : FuelEnough parseValue (fuel + 1) := by
  intro d s v r h
  rw [parseValue] at h
  have hsp := skipSpace_length s
  split at h
  · simp at h
  · next c rest hs =>
    rw [hs] at hsp
    simp only [List.length_cons] at hsp
    have hsp1 := skipSpace_length rest
    split at h
    · next hc =>
      split at h
      · simp at h
      · next hd =>
        split at h
        · next r1 hs1 =>
          simp only [Option.some.injEq, Prod.mk.injEq] at h
          obtain ⟨hv, hr⟩ := h
          subst hv hr
          rw [hs1] at hsp1
          simp only [List.length_cons] at hsp1
          refine ⟨by omega, fun g hg => ?_⟩
          obtain ⟨g', rfl⟩ : ∃ g', g = g' + 1 := ⟨g - 1, by omega⟩
          rw [parseValue]
          simp only [hs, hc, if_true, hd, if_false, hs1]
        · next r1 hs1 =>
          rw [hs1] at hsp1
          simp only [List.length_cons] at hsp1
          split at h
          · next ms r2 hm =>
            simp only [Option.some.injEq, Prod.mk.injEq] at h
            obtain ⟨hv, hr⟩ := h
            subst hv hr
            obtain ⟨hlen2, hg2⟩ := hM (d + 1) r1 ms r2 hm
            refine ⟨by omega, fun g hg => ?_⟩
            obtain ⟨g', rfl⟩ : ∃ g', g = g' + 1 := ⟨g - 1, by omega⟩
            rw [parseValue]
            simp only [hs, hc, if_true, hd, if_false, hs1, hg2 g' (by omega)]
          · simp at h
        · simp at h
    · next hc =>
      split at h
      · next hc2 =>
        split at h
        · simp at h
        · next hd =>
          split at h
          · next r1 hs1 =>
            simp only [Option.some.injEq, Prod.mk.injEq] at h
            obtain ⟨hv, hr⟩ := h
            subst hv hr
            rw [hs1] at hsp1
            simp only [List.length_cons] at hsp1
            refine ⟨by omega, fun g hg => ?_⟩
            obtain ⟨g', rfl⟩ : ∃ g', g = g' + 1 := ⟨g - 1, by omega⟩
            rw [parseValue]
            simp [hs, hc2, hd, hs1]
          · next hne =>
            split at h
            · next es r2 he =>
              simp only [Option.some.injEq, Prod.mk.injEq] at h
              obtain ⟨hv, hr⟩ := h
              subst hv hr
              obtain ⟨hlen2, hg2⟩ := hE (d + 1) rest es r2 he
              refine ⟨by omega, fun g hg => ?_⟩
              obtain ⟨g', rfl⟩ : ∃ g', g = g' + 1 := ⟨g - 1, by omega⟩
              rw [parseValue]
              simp only [hs, hc, if_true, hc2, hd, if_false, hg2 g' (by omega)]
              cases hsr : skipSpace rest with
              | nil => simp
              | cons x xs =>
                by_cases hx : x = 93
                · subst hx
                  exact absurd hsr (hne xs)
                · simp [hx]
            · simp at h
      · next hc2 =>
        have hleaf : ∀ g, 2 * (s.length - r.length) ≤ g → r.length < s.length →
            parseValue g d s = some (v, r) := by
          intro g hg hlt
          obtain ⟨g', rfl⟩ : ∃ g', g = g' + 1 := ⟨g - 1, by omega⟩
          rw [parseValue]
          simp only [hs, hc, if_false, hc2]
          exact h
        have hlt : r.length < s.length := by
          split at h
          · split at h
            · next raw r1 hk =>
              have hlenk := scanString_length _ _ _ hk
              split at h
              · simp only [Option.some.injEq, Prod.mk.injEq] at h
                rw [← h.2]
                omega
              · simp at h
            · simp at h
          · split at h
            · split at h
              · next r1 hl =>
                have := scanLiteral_length _ _ _ hl
                simp only [Option.some.injEq, Prod.mk.injEq] at h
                rw [← h.2]
                omega
              · simp at h
            · split at h
              · split at h
                · next r1 hl =>
                  have := scanLiteral_length _ _ _ hl
                  simp only [Option.some.injEq, Prod.mk.injEq] at h
                  rw [← h.2]
                  omega
                · simp at h
              · split at h
                · split at h
                  · next r1 hl =>
                    have := scanLiteral_length _ _ _ hl
                    simp only [Option.some.injEq, Prod.mk.injEq] at h
                    rw [← h.2]
                    omega
                  · simp at h
                · split at h
                  · next t r1 hn =>
                    have := scanNumber_length _ _ _ hn
                    simp only [Option.some.injEq, Prod.mk.injEq] at h
                    rw [← h.2]
                    simp only [List.length_cons] at this
                    omega
                  · simp at h
        exact ⟨hlt, fun g hg => hleaf g hg hlt⟩

theorem parse_fuel_enough : ∀ fuel,
    FuelEnough parseValue fuel ∧ FuelEnough parseMembers fuel ∧ FuelEnough parseElements fuel := by
  intro fuel
  induction fuel with
  | zero =>
    refine ⟨?_, ?_, ?_⟩
    · intro d s v r h; simp [parseValue] at h
    · intro d s v r h; simp [parseMembers] at h
    · intro d s v r h; simp [parseElements] at h
  | succ n ih =>
    obtain ⟨hV, hM, hE⟩ := ih
    exact ⟨parseValue_fuel n hM hE, parseMembers_fuel n hV hM, parseElements_fuel n hV hE⟩

/-- The fuel of `parseJSON` is enough: the input is parsed to a value by `parseJSON`
exactly when some amount of fuel parses it to that value. -/
theorem parseJSON_eq_some_iff (data : List Nat) (v : JSON) :
    parseJSON data = some v ↔
      ∃ fuel rest, parseValue fuel 0 data = some (v, rest) ∧ skipSpace rest = [] := by
  constructor
  · intro h
    unfold parseJSON at h
    split at h
    · next v1 rest hp =>
      split at h
      · next hsp =>
        simp only [Option.some.injEq] at h
        subst h
        exact ⟨_, rest, hp, hsp⟩
      · simp at h
    · simp at h
  · rintro ⟨fuel, rest, hp, hsp⟩
    obtain ⟨hlen, hg⟩ := (parse_fuel_enough fuel).1 0 data v rest hp
    unfold parseJSON
    rw [hg (2 * data.length + 2) (by omega)]
    simp [hsp]

/-! ## The token object -/

theorem str_token_head :
    str "\x7b\"id_token\":\"" = 123 :: 34 :: (str "id_token" ++ 34 :: 58 :: [34]) := by decide

theorem str_token_tail : str "\"\x7d" = [34, 125] := by decide

theorem parseValue_token_object (t : List Nat) (f : Nat)
    (hscan : scanString (t ++ 34 :: [125]) = some (t, [125]))
    (hunq : unquote t = some t) :
    parseValue (f + 3) 0 (123 :: 34 :: (str "id_token" ++ 34 :: 58 :: 34 :: (t ++ 34 :: [125]))) =
      some (.object [(str "id_token", .string t)], []) := by
  have hkey : scanString (str "id_token" ++ 34 :: 58 :: 34 :: (t ++ 34 :: [125])) =
      some (str "id_token", 58 :: 34 :: (t ++ 34 :: [125])) := by
    have hplain : ∀ b ∈ str "id_token", 32 ≤ b ∧ b ≠ 34 ∧ b ≠ 92 := by decide
    exact scanString_plain _ _ hplain
  have hkeyu : unquote (str "id_token") = some (str "id_token") := by decide
  have hval : parseValue (f + 1) 1 (34 :: (t ++ 34 :: [125])) = some (.string t, [125]) := by
    rw [parseValue]
    simp [skipSpace, isSpace, hscan, hunq]
  have hmem : parseMembers (f + 2) 1 (str "id_token" ++ 34 :: 58 :: 34 :: (t ++ 34 :: [125])) =
      some ([(str "id_token", .string t)], []) := by
    rw [parseMembers]
    simp [hkey, hkeyu, skipSpace, isSpace, hval]
  rw [parseValue]
  simp [skipSpace, isSpace, maxNestingDepth, hmem]

theorem parseJSON_token_object (t : List Nat)
    (hscan : scanString (t ++ 34 :: [125]) = some (t, [125]))
    (hunq : unquote t = some t) :
    parseJSON (str "\x7b\"id_token\":\"" ++ t ++ str "\"\x7d") =
      some (.object [(str "id_token", .string t)]) := by
  have hdata : str "\x7b\"id_token\":\"" ++ t ++ str "\"\x7d" =
      123 :: 34 :: (str "id_token" ++ 34 :: 58 :: 34 :: (t ++ 34 :: [125])) := by
    rw [str_token_head, str_token_tail]
    simp
  rw [hdata, parseJSON]
  obtain ⟨f, hf⟩ : ∃ f, 2 * (123 :: 34 :: (str "id_token" ++ 34 :: 58 :: 34 ::
      (t ++ 34 :: [125]))).length + 2 = f + 3 :=
    ⟨2 * (34 :: (str "id_token" ++ 34 :: 58 :: 34 :: (t ++ 34 :: [125]))).length + 1, by
      simp only [List.length_cons]; omega⟩
  rw [hf, parseValue_token_object t f hscan hunq]
  simp [skipSpace]

theorem Unmarshal_token_object (t : String) (h : ∀ c ∈ t.toList, plainRune c.toNat) :
    Unmarshal (str "\x7b\"id_token\":\"" ++ str t ++ str "\"\x7d") = .ok (str t) := by
  have hscan := scanString_plain [125] (str t) (str_plain t h)
  have hunq := unquote_str t h
  rw [Unmarshal, parseJSON_token_object (str t) hscan hunq]
  have hk : isIDTokenKey (str "id_token") = true := by decide
  simp [decodeIDToken, objectInto, hk]

theorem token_object_lt (t : String) :
    ∀ b ∈ str "\x7b\"id_token\":\"" ++ str t ++ str "\"\x7d", b < 256 := by
  intro b hb
  simp only [List.mem_append] at hb
  rcases hb with (hb | hb) | hb <;> exact str_lt _ b hb

/-- Claim C3 (round-trip token decode).  For every token `t` made of characters that need no
escaping in a JSON string (no control character, no `"`, no `\`), the decoding stage of
`getLoginToken` applied to the standard base64 encoding of `{"id_token":"t"}` returns
exactly `t` and no error. -/
theorem token_round_trip (t : String)
    (h : ∀ c ∈ t.toList, 32 ≤ c.toNat ∧ c.toNat ≠ 34 ∧ c.toNat ≠ 92) :
    decodeToken (EncodeToString (str "\x7b\"id_token\":\"" ++ str t ++ str "\"\x7d")) = .ok (str t) := by
  rw [decodeToken, DecodeString_EncodeToString _ (token_object_lt t)]
  exact Unmarshal_token_object t h

/-- Witness of C3: the token `abc123`. -/
theorem token_round_trip_witness :
    decodeToken (EncodeToString (str "\x7b\"id_token\":\"" ++ str "abc123" ++ str "\"\x7d")) =
      .ok (str "abc123") :=
  token_round_trip "abc123" (by decide)

/-! ## Decoding into the struct -/

theorem objectInto_skip (key : GoString) (v : JSON) (ms : List (GoString × JSON))
    (tok : GoString) (err : Option Error) (h : isIDTokenKey key = false) :
    objectInto ((key, v) :: ms) tok err = objectInto ms tok err := by
  rw [objectInto.eq_def]
  simp [h]

theorem objectInto_field (key : GoString) (v : JSON) (ms : List (GoString × JSON))
    (tok : GoString) (err : Option Error) (h : isIDTokenKey key = true) :
    objectInto ((key, v) :: ms) tok err =
      match v with
      | .string s => objectInto ms s err
      | .null => objectInto ms tok err
      | .bool _ | .number _ | .array _ | .object _ =>
        objectInto ms tok (match err with | some e => some e | none => some .jsonType) := by
  cases v <;> (rw [objectInto.eq_def]; simp only [h, if_true])

theorem objectInto_saved (ms : List (GoString × JSON)) :
    ∀ (tok : GoString) (e : Error), (objectInto ms tok (some e)).2 = some e := by
  induction ms with
  | nil => intro tok e; rfl
  | cons m ms ih =>
    intro tok e
    obtain ⟨key, v⟩ := m
    cases hk : isIDTokenKey key with
    | false => rw [objectInto_skip _ _ _ _ _ hk]; exact ih tok e
    | true =>
      rw [objectInto_field _ _ _ _ _ hk]
      cases v <;> simp only [ih]

theorem objectInto_wrong_type (ms : List (GoString × JSON)) :
    ∀ (tok : GoString),
      (∃ kv ∈ ms, isIDTokenKey kv.1 = true ∧ kv.2.isString = false ∧ kv.2.isNull = false) →
      (objectInto ms tok none).2 = some .jsonType := by
  induction ms with
  | nil => intro tok h; obtain ⟨kv, hkv, _⟩ := h; cases hkv
  | cons m ms ih =>
    intro tok h
    obtain ⟨key, v⟩ := m
    obtain ⟨kv, hkv, hkey, hstr, hnull⟩ := h
    rcases List.mem_cons.1 hkv with heq | hmem
    · subst heq
      simp only at hkey hstr hnull
      rw [objectInto_field _ _ _ _ _ hkey]
      cases v with
      | string s => simp [JSON.isString] at hstr
      | null => simp [JSON.isNull] at hnull
      | bool b => exact objectInto_saved ms tok _
      | number n => exact objectInto_saved ms tok _
      | array es => exact objectInto_saved ms tok _
      | object os => exact objectInto_saved ms tok _
    · have hrest := fun tok' => ih tok' ⟨kv, hmem, hkey, hstr, hnull⟩
      cases hk : isIDTokenKey key with
      | false => rw [objectInto_skip _ _ _ _ _ hk]; exact hrest _
      | true =>
        rw [objectInto_field _ _ _ _ _ hk]
        cases v with
        | string s => exact hrest _
        | null => exact hrest _
        | bool b => exact objectInto_saved ms tok _
        | number n => exact objectInto_saved ms tok _
        | array es => exact objectInto_saved ms tok _
        | object os => exact objectInto_saved ms tok _

theorem objectInto_no_field (ms : List (GoString × JSON)) :
    ∀ (tok : GoString) (err : Option Error), (∀ kv ∈ ms, isIDTokenKey kv.1 = false) →
      objectInto ms tok err = (tok, err) := by
  induction ms with
  | nil => intro tok err _; rfl
  | cons m ms ih =>
    intro tok err h
    obtain ⟨key, v⟩ := m
    have hk : isIDTokenKey key = false := h (key, v) (List.mem_cons_self _ _)
    rw [objectInto_skip _ _ _ _ _ hk]
    exact ih tok err (fun kv hkv => h kv (List.mem_cons_of_mem _ hkv))

/-- Counterexample to C4: `e30=` is the standard base64 encoding of `{}`, an object
without an `id_token` field, and `eyJvdGhlciI6IngifQ==` that of `{"other":"x"}`; the
decoder returns the empty token and no error for both. -/
theorem missing_id_token_no_error :
    DecodeString (str "e30=") = .ok (str "\x7b\x7d") ∧
    decodeToken (str "e30=") = .ok [] ∧
    DecodeString (str "eyJvdGhlciI6IngifQ==") = .ok (str "\x7b\"other\":\"x\"\x7d") ∧
    decodeToken (str "eyJvdGhlciI6IngifQ==") = .ok [] := by
  decide

/-- Claim C4, amended.  For every payload that is valid standard base64: when the decoded
bytes are not valid JSON, the decoder returns a syntax error; when they are a JSON value
that is neither an object nor `null`, or an object in which a member whose key matches
`id_token` has a value that is neither a string nor `null`, it returns a type error and
no token; when they are an object without a member whose key matches `id_token`, or
`null`, it returns the empty token and a nil error. -/
theorem malformed_token_payload (payload data : List Nat)
    (hdec : DecodeString payload = .ok data) :
    (parseJSON data = none → decodeToken payload = .error .jsonSyntax) ∧
    (∀ v, parseJSON data = some v →
      (v.isObject = false → v.isNull = false → decodeToken payload = .error .jsonType) ∧
      (v.isNull = true → decodeToken payload = .ok []) ∧
      (∀ ms, v = .object ms →
        ((∃ kv ∈ ms, isIDTokenKey kv.1 = true ∧ kv.2.isString = false ∧ kv.2.isNull = false) →
          decodeToken payload = .error .jsonType) ∧
        ((∀ kv ∈ ms, isIDTokenKey kv.1 = false) → decodeToken payload = .ok []))) := by
  constructor
  · intro hnone
    simp only [decodeToken, hdec, Unmarshal, hnone]
  · intro v hv
    have hU : decodeToken payload = decodeIDToken v := by
      simp only [decodeToken, hdec, Unmarshal, hv]
    rw [hU]
    refine ⟨?_, ?_, ?_⟩
    · intro hobj hnull
      cases v with
      | null => simp [JSON.isNull] at hnull
      | object ms => simp [JSON.isObject] at hobj
      | bool b => rfl
      | number n => rfl
      | string s => rfl
      | array es => rfl
    · intro hnull
      cases v with
      | null => rfl
      | object ms => simp [JSON.isNull] at hnull
      | bool b => simp [JSON.isNull] at hnull
      | number n => simp [JSON.isNull] at hnull
      | string s => simp [JSON.isNull] at hnull
      | array es => simp [JSON.isNull] at hnull
    · intro ms hms
      subst hms
      constructor
      · intro hwrong
        have h2 := objectInto_wrong_type ms [] hwrong
        rw [decodeIDToken]
        cases hr : objectInto ms [] none with
        | mk tok err =>
          rw [hr] at h2
          simp only at h2
          subst h2
          rfl
      · intro hno
        rw [decodeIDToken, objectInto_no_field ms [] none hno]

/-- Witness of C4, amended: `{"id_token":5}` and `[1]` give a type error,
`{"other":"x"}` gives the empty token. -/
theorem malformed_token_payload_witness :
    decodeToken (str "eyJpZF90b2tlbiI6NX0=") = .error .jsonType ∧
    decodeToken (str "WzFd") = .error .jsonType ∧
    decodeToken (str "eyJvdGhlciI6IngifQ==") = .ok [] :=
  ⟨(((malformed_token_payload (str "eyJpZF90b2tlbiI6NX0=") (str "\x7b\"id_token\":5\x7d") (by decide)).2
      (.object [(str "id_token", .number (str "5"))]) rfl).2.2
      [(str "id_token", .number (str "5"))] rfl).1
      ⟨(str "id_token", .number (str "5")), by simp, by decide, rfl, rfl⟩,
   ((malformed_token_payload (str "WzFd") (str "[1]") (by decide)).2
      (.array [.number (str "1")]) rfl).1 rfl rfl,
   (((malformed_token_payload (str "eyJvdGhlciI6IngifQ==") (str "\x7b\"other\":\"x\"\x7d")
      (by decide)).2 (.object [(str "other", .string (str "x"))]) rfl).2.2
      [(str "other", .string (str "x"))] rfl).2
      (by intro kv hkv; simp only [List.mem_singleton] at hkv; subst hkv; decide)⟩

/-! ## The token page -/

/-- Counterexample to C5: the page whose only script is the fixture's
`<script>var value = 1; document.x = "<base64>"; </script>`, the payload being the
base64 encoding of `{"id_token":"TOKEN"}`.  `getLoginToken` returns the error "Couldn't
extract ACS token from response", and still does when the script carries
`type="text/javascript"`: the pattern wants a character other than `;` after the
closing quote. -/
theorem fixture_script_not_extracted :
    decodeToken (str "eyJpZF90b2tlbiI6IlRPS0VOIn0=") = .ok (str "TOKEN") ∧
    getLoginToken (scriptPage (plainScript fixtureScriptText)) =
      .error (.new "Couldn't extract ACS token from response") ∧
    getLoginToken (scriptPage (typedScript fixtureScriptText)) =
      .error (.new "Couldn't extract ACS token from response") := by
  decide

/-- Claim C5, amended.  For a token-bearing page whose last `script[type="text/javascript"]`
element has the text `var value <f1>"<base64>"<f2>;<rest>`, with `f1` non-empty and free
of quotes, `f2` non-empty and free of `;`, and `<base64>` the standard base64 encoding of
`{"id_token":"T"}` for a token `T` of characters that need no JSON escaping,
`getLoginToken` returns exactly `T` and no error, and so does `githubAuthenticate` when
that page is the token-bearing response. -/
theorem fixture_token_extracted (res : Response) (doc : List Node) (earlier : List Located)
    (last : Located) (f1 f2 rest : List Nat) (t : String)
    (hdoc : res.document = .ok doc)
    (hlast : Document.Find doc scriptSelector = earlier ++ [last])
    (htext : Node.Text last.node = str "var value " ++ f1 ++
      34 :: (EncodeToString (str "\x7b\"id_token\":\"" ++ str t ++ str "\"\x7d") ++
        34 :: (f2 ++ 59 :: rest)))
    (hf1 : f1 ≠ []) (hq1 : ∀ y ∈ f1, y ≠ 34) (hf2 : f2 ≠ []) (hs2 : ∀ y ∈ f2, y ≠ 59)
    (ht : ∀ c ∈ t.toList, 32 ≤ c.toNat ∧ c.toNat ≠ 34 ∧ c.toNat ≠ 92) :
    getLoginToken res = .ok (str t) ∧
    (∀ env c csrfToken username password s ghRes s1 s2,
      client.PostForm env c (str "https://github.com/session")
        [(str "login", [username]), (str "password", [password]),
         (str "authenticity_token", [csrfToken])] s = (.ok ghRes, s1) →
      client.followLoginRedirect env c ghRes s1 = (.ok res, s2) →
      client.githubAuthenticate env c csrfToken username password s = (.ok (str t), s2)) := by
  have hne : EncodeToString (str "\x7b\"id_token\":\"" ++ str t ++ str "\"\x7d") ≠ [] := by
    apply EncodeToString_ne_nil
    rw [str_token_head]
    simp
  have hfind := FindStringSubmatch_token f1
    (EncodeToString (str "\x7b\"id_token\":\"" ++ str t ++ str "\"\x7d")) f2 rest hf1 hq1 hne
    (EncodeToString_ne_quote _) hf2 hs2
  have hget : getLoginToken res = .ok (str t) := by
    simp only [getLoginToken, hdoc, script_text_last doc earlier last hlast, htext, hfind]
    show decodeToken (EncodeToString (str "\x7b\"id_token\":\"" ++ str t ++ str "\"\x7d")) = .ok (str t)
    rw [decodeToken, DecodeString_EncodeToString _ (token_object_lt t)]
    exact Unmarshal_token_object t ht
  refine ⟨hget, ?_⟩
  intro env c csrfToken username password s ghRes s1 s2 hpost hfollow
  simp only [client.githubAuthenticate, hpost, hfollow, hget]

/-- Witness of C5, amended: the token page of the fixtures, whose last script reads
`var value = JSON.parse(atob("<base64>")); done();`. -/
theorem fixture_token_extracted_witness :
    getLoginToken tokenPage = .ok (str "TOKEN") :=
  (fixture_token_extracted tokenPage _
    [⟨typedScript (str "var x = 1;"), [⟨str "head", []⟩, ⟨str "html", []⟩]⟩]
    ⟨typedScript (str "var value = JSON.parse(atob(\"eyJpZF90b2tlbiI6IlRPS0VOIn0=\")); done();"),
      [⟨str "body", []⟩, ⟨str "html", []⟩]⟩
    (str "= JSON.parse(atob(") (str "))") (str " done();") "TOKEN" rfl rfl (by decide)
    (by decide) (by decide) (by decide) (by decide) (by decide)).1

end DcosLogin
